import Mathlib

/-!
# Formal model of the DataElevate pipeline

A shallow embedding of the data-transformation pipeline implemented in
`src/DataElevate/main.py` (a Streamlit/pandas script): loading CSV/Excel
uploads, cleaning (duplicate removal, numeric mean imputation), column
selection, visualization dispatch, and export/download naming.

Tables are modelled row-major: a header of named, typed columns and a list
of rows of cells.  Missing values (pandas `NaN`/`None`) are the cell `Cell.na`;
numbers are rationals (float64 values are rationals, and the floating-point
rounding of `mean` is not at issue in any claim checked here).
-/

namespace DataElevate

/-- A scalar value held in one cell of a table: missing (`NaN`), a number,
a piece of text, or a boolean. -/
inductive Cell where
  | na : Cell
  | num : ℚ → Cell
  | str : String → Cell
  | bool : Bool → Cell
deriving DecidableEq, Repr

/-- The inferred dtype of a column: numeric (pandas `number` dtypes, which do
not include `bool`), boolean, or neither (`object`, here: text). -/
inductive DType where
  | numeric : DType
  | boolean : DType
  | text : DType
deriving DecidableEq, Repr

/-- An in-memory table: ordered named typed columns, positionally aligned rows. -/
structure Table where
  header : List (String × DType)
  rows : List (List Cell)
deriving DecidableEq, Repr

/-- Well-formedness: every row has exactly one cell per column. -/
def Table.WF (t : Table) : Prop := ∀ r ∈ t.rows, r.length = t.header.length

instance (t : Table) : Decidable t.WF := by
  unfold Table.WF; infer_instance

/-- The column names, in order (pandas `df.columns`). -/
def Table.colNames (t : Table) : List String := t.header.map Prod.fst

/-- Number of rows (`len(df)`). -/
def Table.nRows (t : Table) : ℕ := t.rows.length

/-- Number of columns. -/
def Table.nCols (t : Table) : ℕ := t.header.length

/-- The cells of column `j`, top to bottom. -/
def Table.colCells (t : Table) (j : ℕ) : List Cell :=
  t.rows.map (fun r => r.getD j Cell.na)

/-- The dtype tag of column `j`. -/
def Table.colType (t : Table) (j : ℕ) : DType :=
  (t.header.getD j ("", DType.text)).2

/-! ## RemoveDuplicates (`df.drop_duplicates(inplace=True)`)

pandas keeps a row iff no earlier row is equal to it on all columns
(`keep='first'`), comparing missing values as equal to each other. -/

/-- Keep the rows not seen before, scanning left to right; `seen` is the set of
rows already kept or skipped.  This is the `keep='first'` scan of
`drop_duplicates`. -/
def dropDupAux {α : Type} [DecidableEq α] (seen : List α) : List α → List α
  | [] => []
  | r :: rs => if r ∈ seen then dropDupAux seen rs else r :: dropDupAux (r :: seen) rs

/-- `df.drop_duplicates(inplace=True)`: drop every row equal (cell-wise, with
`na = na`) to an earlier row. -/
def removeDuplicates (t : Table) : Table :=
  { t with rows := dropDupAux [] t.rows }

/-- The count reported by the script: `before_count - after_count`. -/
def removedCount (t : Table) : ℕ :=
  t.nRows - (removeDuplicates t).nRows

/-- Scalar comparison of two cells as pandas `==` compares scalars: a missing
value (`NaN`) compares unequal to everything, itself included, and a boolean
compares equal to its numeric value (Python `True == 1`). -/
def Cell.scalarEq : Cell → Cell → Bool
  | Cell.num a, Cell.num b => a = b
  | Cell.str a, Cell.str b => a = b
  | Cell.bool a, Cell.bool b => a = b
  | Cell.num a, Cell.bool b => a = (if b then (1 : ℚ) else 0)
  | Cell.bool a, Cell.num b => (if a then (1 : ℚ) else 0) = b
  | _, _ => false

/-! ## FillMissingNumeric
(`df[numeric_cols] = df[numeric_cols].fillna(df[numeric_cols].mean())`)

`numeric_cols = df.select_dtypes(include=["number"]).columns`; `mean()` skips
missing values; `fillna` with a per-column mean leaves a column untouched when
its mean is itself missing (all-missing column). -/

/-- The numeric value of a cell, if it has one. -/
def cellNumVal : Cell → Option ℚ
  | Cell.num q => some q
  | _ => none

/-- The non-missing numeric values of a column. -/
def colNums (cells : List Cell) : List ℚ := cells.filterMap cellNumVal

/-- `Series.mean()`: the arithmetic mean over non-missing values, `NaN`
(modelled as `none`) when there are no non-missing values. -/
def meanOfCells (cells : List Cell) : Option ℚ :=
  if (colNums cells).length = 0 then none
  else some ((colNums cells).sum / ((colNums cells).length : ℚ))

/-- `fillna` on one cell: replace a missing cell by the fill value when the
fill value is itself non-missing; leave every other cell unchanged. -/
def fillCell (m : Option ℚ) : Cell → Cell
  | Cell.na =>
    match m with
    | some q => Cell.num q
    | none => Cell.na
  | c => c

/-- The fill value used for column `j`: the column mean for numeric columns,
nothing for non-numeric columns (which `fillna` therefore leaves untouched). -/
def Table.colFill (t : Table) (j : ℕ) : Option ℚ :=
  if t.colType j = DType.numeric then meanOfCells (t.colCells j) else none

/-- The mean-imputation cleaning action of the script. -/
def fillMissingNumeric (t : Table) : Table :=
  { t with rows := t.rows.map (fun r =>
      List.zipWith fillCell ((List.range t.nCols).map t.colFill) r) }

/-! ## Column selection (`if selected_columns: df = df[selected_columns]`) -/

/-- The column-selection step: an empty selection applies no filter; a
non-empty selection restricts the table to the selected columns, in the order
of the selection (`df[selected_columns]`, column lookup by name). -/
def selectColumns (t : Table) (sel : List String) : Table :=
  if sel = [] then t
  else
    let idxs := sel.map (fun s => t.colNames.indexOf s)
    { header := idxs.map (fun j => t.header.getD j ("", DType.text)),
      rows := t.rows.map (fun r => idxs.map (fun j => r.getD j Cell.na)) }

/-- The cells of the column named `s` (lookup by name, as `df[s]`). -/
def Table.colByName (t : Table) (s : String) : List Cell :=
  t.colCells (t.colNames.indexOf s)

/-! ## Visualization (`df.select_dtypes(include=["number"])` and the chart branches) -/

/-- Positions of the numeric columns. -/
def numericIdxs (t : Table) : List ℕ :=
  (List.range t.nCols).filter (fun j => t.colType j = DType.numeric)

/-- `df.select_dtypes(include=["number"])`: the table restricted to its
numeric columns, all rows kept. -/
def numericSubset (t : Table) : Table :=
  { header := (numericIdxs t).map (fun j => t.header.getD j ("", DType.text)),
    rows := t.rows.map (fun r => (numericIdxs t).map (fun j => r.getD j Cell.na)) }

/-- `df.empty`: true when the table has no rows or no columns. -/
def Table.isEmpty (t : Table) : Bool := t.rows.isEmpty || t.header.isEmpty

/-- The chart kinds offered in the selectbox. -/
inductive ChartKind where
  | bar : ChartKind
  | line : ChartKind
  | area : ChartKind
  | scatter : ChartKind
deriving DecidableEq, Repr

/-- The names bound at module level by the import statements of
`main.py` (`import streamlit as st`, `import pandas as pd`, `import os`,
`from io import BytesIO`).  Note that `altair` is never imported, so the
name `alt` used in the scatter branch is unbound. -/
def moduleGlobals : List String := ["st", "pd", "os", "BytesIO"]

/-- What the visualization block produces: a rendered chart, a non-fatal
warning, or an uncaught Python `NameError`. -/
inductive VizResult where
  | warnNoNumeric : VizResult
  | chart : ChartKind → Table → VizResult
  | scatterChart : String → String → List String → VizResult
  | warnScatterNeedsTwo : VizResult
  | nameError : String → VizResult
deriving DecidableEq, Repr

/-- The visualization block of the script.  The default of each `selectbox` is
the first entry of its option list, so both the x and the y axis default to
the first numeric column.  Evaluating the scatter expression looks up the
module-level name `alt`; since it is unbound (`moduleGlobals`), the branch
raises `NameError` instead of rendering. -/
def visualize (t : Table) (kind : ChartKind) : VizResult :=
  let nd := numericSubset t
  if nd.isEmpty then VizResult.warnNoNumeric
  else
    match kind with
    | ChartKind.bar => VizResult.chart ChartKind.bar nd
    | ChartKind.line => VizResult.chart ChartKind.line nd
    | ChartKind.area => VizResult.chart ChartKind.area nd
    | ChartKind.scatter =>
      let cols := nd.colNames
      if 2 ≤ cols.length then
        let x := cols.getD 0 ""
        let y := cols.getD 0 ""
        if "alt" ∈ moduleGlobals then VizResult.scatterChart x y ["index", x, y]
        else VizResult.nameError "NameError: name alt is not defined"
      else VizResult.warnScatterNeedsTwo

/-! ## Download naming (`file.name.replace(file_ext, ".csv" / ".xlsx")`) -/

/-- Index of the last `'.'` in a character list, if any. -/
def rfindDot : List Char → Option ℕ
  | [] => none
  | c :: cs =>
    match rfindDot cs with
    | some i => some (i + 1)
    | none => if c = '.' then some 0 else none

/-- `os.path.splitext` for names without a path separator: split at the last
dot, except that leading dots never begin an extension. -/
def splitextChars (name : List Char) : List Char × List Char :=
  match rfindDot name with
  | none => (name, [])
  | some i =>
    if (name.take i).all (fun c => c = '.') then (name, [])
    else (name.take i, name.drop i)

/-- The lower-cased extension, as `os.path.splitext(file.name)[-1].lower()`. -/
def fileExtChars (name : List Char) : List Char :=
  (splitextChars name).2.map Char.toLower

/-- Python `str.replace` scan for a non-empty pattern: replace every
non-overlapping occurrence of `old` by `new`, scanning left to right.  The
recursion is structural on an explicit step budget; every step consumes at
least one character, so a budget of the string's length (what the wrapper
passes) runs the scan to completion. -/
def pyReplaceGo (old new : List Char) : ℕ → List Char → List Char
  | _, [] => []
  | 0, s => s
  | fuel + 1, c :: cs =>
    if old.isPrefixOf (c :: cs) then
      new ++ pyReplaceGo old new fuel (cs.drop (old.length - 1))
    else c :: pyReplaceGo old new fuel cs

/-- Python `str.replace(old, new)`: with an empty pattern, `new` is inserted
at every position; otherwise the left-to-right replacement scan. -/
def pyReplace (s old new : List Char) : List Char :=
  if old = [] then new ++ (s.map (fun c => c :: new)).flatten
  else pyReplaceGo old new s.length s

/-- MIME type attached to a CSV download. -/
def mimeCSV : String := "text/csv"

/-- MIME type attached to an Excel download. -/
def mimeXLSX : String := "application/vnd.openxmlformats-officedocument.spreadsheetml.sheet"

/-- The radio choice for the conversion target. -/
inductive TargetFormat where
  | csv : TargetFormat
  | excel : TargetFormat
deriving DecidableEq, Repr

/-- The name and MIME type handed to `st.download_button`. -/
structure DownloadSpec where
  fileName : List Char
  mime : String
deriving DecidableEq, Repr

/-- The conversion branch: `new_file_name = file.name.replace(file_ext, ...)`
with the matching MIME type. -/
def downloadSpec (origName : List Char) (fmt : TargetFormat) : DownloadSpec :=
  let ext := fileExtChars origName
  match fmt with
  | TargetFormat.csv => ⟨pyReplace origName ext ".csv".data, mimeCSV⟩
  | TargetFormat.excel => ⟨pyReplace origName ext ".xlsx".data, mimeXLSX⟩

/-! ## CSV serialization (`df.to_csv(buffer, index=False)`) and parsing
(`pd.read_csv`)

The byte stream is modelled as a `List Char`.  Writing follows `to_csv`:
header line of column names, one line per row, fields comma-separated,
missing values written as the empty field, fields containing a separator,
quote or newline quoted with doubled inner quotes, every line terminated by
a newline.  Reading models the core of `read_csv`: blank lines skipped, the
first line giving the column names, per-column dtype inference (a column all
of whose fields are missing-markers or numeric literals becomes numeric),
the default missing-value markers mapped to missing.  Quote-unescaping on
input, scientific infinity literals and locale options of `read_csv` are not
modelled; the round-trip theorem's hypotheses keep inputs away from them.
Since every float64 has a finite decimal expansion, number rendering is
modelled as exact finite-decimal printing and is partial (`Option`) on the
rationals that have none (such rationals are not float64 values). -/

/-- The character for decimal digit `d`. -/
def digitChar (d : ℕ) : Char := Char.ofNat (48 + d)

/-- Big-endian decimal digits of a natural number. -/
def natToChars (n : ℕ) : List Char :=
  if _h : n < 10 then [digitChar n]
  else natToChars (n / 10) ++ [digitChar (n % 10)]
termination_by n
decreasing_by exact Nat.div_lt_self (by omega) (by omega)

/-- Accumulating decimal-digit scanner: `none` on the first non-digit. -/
def goDigits (acc : ℕ) : List Char → Option ℕ
  | [] => some acc
  | c :: cs =>
    if 48 ≤ c.toNat ∧ c.toNat ≤ 57 then goDigits (10 * acc + (c.toNat - 48)) cs
    else none

/-- Parse a non-empty all-digit string. -/
def parseDigits (l : List Char) : Option ℕ :=
  if l = [] then none else goDigits 0 l

/-- Parse an unsigned decimal literal: `digits`, `digits.digits`, `.digits`
or `digits.`. -/
def parseUnsigned (l : List Char) : Option ℚ :=
  match l.splitOn '.' with
  | [ip] => if ip = [] then none else (goDigits 0 ip).map (fun n => (n : ℚ))
  | [ip, fp] =>
    if ip = [] ∧ fp = [] then none
    else
      match goDigits 0 ip, goDigits 0 fp with
      | some a, some b => some ((a : ℚ) + (b : ℚ) / ((10 : ℚ) ^ fp.length))
      | _, _ => none
  | _ => none

/-- Parse an optionally signed decimal literal. -/
def parseSignedBase (l : List Char) : Option ℚ :=
  match l with
  | [] => none
  | c :: rest =>
    if c = '-' then (parseUnsigned rest).map (fun q => -q)
    else if c = '+' then parseUnsigned rest
    else parseUnsigned (c :: rest)

/-- Parse an optionally signed integer (an exponent). -/
def parseExpPart (l : List Char) : Option ℤ :=
  match l with
  | [] => none
  | c :: rest =>
    if c = '-' then (parseDigits rest).map (fun n => -(n : ℤ))
    else if c = '+' then (parseDigits rest).map (fun n => (n : ℤ))
    else (parseDigits (c :: rest)).map (fun n => (n : ℤ))

/-- Parse a decimal float literal, scientific notation included. -/
def parseNumChars (l : List Char) : Option ℚ :=
  match l.splitOnP (fun c => c = 'e' || c = 'E') with
  | [base] => parseSignedBase base
  | [base, ex] =>
    match parseSignedBase base, parseExpPart ex with
    | some b, some e => some (b * (10 : ℚ) ^ e)
    | _, _ => none
  | _ => none

/-- The least exponent `k ≤ d` with `d ∣ 10 ^ k`, when one exists: the
denominators of float64 values (powers of two) always have one. -/
def decExp (d : ℕ) : Option ℕ :=
  (List.range (d + 1)).find? (fun k => 10 ^ k % d = 0)

/-- Finite-decimal rendering of `m / 10 ^ k` for naturals. -/
def decimalCharsNat (m k : ℕ) : List Char :=
  if k = 0 then natToChars m
  else
    let fd := natToChars (m % 10 ^ k)
    natToChars (m / 10 ^ k) ++ '.' :: (List.replicate (k - fd.length) '0' ++ fd)

/-- Finite-decimal rendering of a rational, when it has one. -/
def decimalChars (q : ℚ) : Option (List Char) :=
  match decExp q.den with
  | none => none
  | some k =>
    let m := q.num.natAbs * (10 ^ k / q.den)
    some (if q.num < 0 then '-' :: decimalCharsNat m k else decimalCharsNat m k)

/-- Characters that force quoting in a CSV field. -/
def csvSpecial (c : Char) : Bool := c = ',' || c = '"' || c = '\n' || c = '\r'

/-- Minimal quoting, as `to_csv` writes fields: wrap in quotes and double the
inner quotes exactly when the field contains a special character. -/
def csvEscapeField (f : List Char) : List Char :=
  if f.any csvSpecial then
    '"' :: (f.map (fun c => if c = '"' then ['"', '"'] else [c])).flatten ++ ['"']
  else f

/-- The field written for one cell: empty for missing, a decimal literal for
a number, the escaped text for a string, `str()` of a Python boolean for a
boolean. -/
def cellToField : Cell → Option (List Char)
  | Cell.na => some []
  | Cell.num q => decimalChars q
  | Cell.str s => some (csvEscapeField s.data)
  | Cell.bool b => some (if b then ("True" : String).data else ("False" : String).data)

/-- A CSV line: fields joined by commas. -/
def csvLine (fields : List (List Char)) : List Char := [','].intercalate fields

/-- `df.to_csv(buffer, index=False)`: header line then data lines, each
newline-terminated. -/
def csvWrite (t : Table) : Option (List Char) :=
  (t.rows.mapM (fun r : List Cell => r.mapM cellToField)).map (fun rws =>
    ((csvLine (t.colNames.map (fun s => csvEscapeField s.data))
        :: rws.map csvLine).map (fun ln => ln ++ ['\n'])).flatten)

/-- The default missing-value markers of `read_csv`. -/
def naStrings : List (List Char) :=
  ["", "#N/A", "#N/A N/A", "#NA", "-1.#IND", "-1.#QNAN", "-NaN", "-nan",
   "1.#IND", "1.#QNAN", "<NA>", "N/A", "NA", "NULL", "NaN", "None",
   "n/a", "nan", "null"].map String.data

/-- Is this field one of the default missing-value markers? -/
def fieldIsNA (f : List Char) : Bool := naStrings.contains f

/-- The default true literals of the `read_csv` tokenizer and of
`maybe_convert_bool` (the built-in `true_values`). -/
def trueStrings : List (List Char) := ["TRUE", "True", "true"].map String.data

/-- The default false literals (the built-in `false_values`). -/
def falseStrings : List (List Char) := ["FALSE", "False", "false"].map String.data

/-- Is this field a boolean literal? -/
def fieldBoolLike (f : List Char) : Bool :=
  trueStrings.contains f || falseStrings.contains f

/-- A field compatible with `bool` dtype inference: a missing-value marker or
a boolean literal. -/
def fieldBoolOrNA (f : List Char) : Bool := fieldIsNA f || fieldBoolLike f

/-- Lower-cased infinity literals, which `read_csv` parses as floats but the
model does not; the round-trip hypotheses exclude them. -/
def infStringsLower : List (List Char) :=
  ["inf", "-inf", "+inf", "infinity", "-infinity", "+infinity"].map String.data

/-- The non-blank lines of the stream (`read_csv` skips blank lines). -/
def splitLines (bytes : List Char) : List (List Char) :=
  (bytes.splitOn '\n').filter (fun ln => ln ≠ [])

/-- The comma-separated fields of one line. -/
def fieldsOfLine (ln : List Char) : List (List Char) := ln.splitOn ','

/-- A field that does not force a column to `object` dtype: a missing-value
marker or a numeric literal. -/
def fieldNumericLike (f : List Char) : Bool := fieldIsNA f || (parseNumChars f).isSome

/-- Column dtype inference of `read_csv`: the tokenizer first tries a numeric
column (every field a number or a missing-value marker), then a boolean
column (every field a default true/false literal or a missing-value marker),
and otherwise leaves the column as `object` (text). -/
def inferColType (fs : List (List Char)) : DType :=
  if fs.all fieldNumericLike then DType.numeric
  else if fs.all fieldBoolOrNA then DType.boolean
  else DType.text

/-- The cell a field becomes in a column of the given inferred dtype. -/
def fieldCell (dt : DType) (f : List Char) : Cell :=
  if fieldIsNA f then Cell.na
  else
    match dt with
    | DType.numeric =>
      match parseNumChars f with
      | some q => Cell.num q
      | none => Cell.na
    | DType.boolean =>
      if trueStrings.contains f then Cell.bool true
      else if falseStrings.contains f then Cell.bool false
      else Cell.na
    | DType.text => Cell.str (String.mk f)

/-- The shared core of `read_csv` after line splitting: first line the column
names, require rectangular data, infer each column's dtype, convert fields
to cells. -/
def csvParse (hdr : List Char) (dataLines : List (List Char)) : Option Table :=
  let names := (fieldsOfLine hdr).map String.mk
  let fieldRows := dataLines.map fieldsOfLine
  if fieldRows.all (fun r => r.length = names.length) then
    let colT := fun j => inferColType (fieldRows.map (fun r => r.getD j []))
    some
      { header := (List.range names.length).map (fun j => (names.getD j "", colT j)),
        rows := fieldRows.map (fun r =>
          (List.range names.length).map (fun j => fieldCell (colT j) (r.getD j []))) }
  else none

/-- `pd.read_csv` (core): split into non-blank lines and parse.  `none`
models a parse exception (no data, ragged rows). -/
def csvRead (bytes : List Char) : Option Table :=
  match splitLines bytes with
  | [] => none
  | hdr :: dataLines => csvParse hdr dataLines

/-! ## Excel serialization (`df.to_excel(buffer, index=False)` / `pd.read_excel`)

An `.xlsx` worksheet is modelled as its grid of typed cells (the zip/XML
container encodes exactly that).  Writing stores numbers as number cells,
text as text cells and missing values as blank cells; reading converts them
back, applies the default missing-value markers to text, and drops trailing
all-blank rows (which the written workbook does not materialize). -/

/-- One worksheet cell: blank, a float64 number, a string, or a native
boolean cell. -/
inductive XCell where
  | empty : XCell
  | number : ℚ → XCell
  | text : String → XCell
  | bool : Bool → XCell
deriving DecidableEq, Repr

/-- How `to_excel` stores one cell. -/
def cellToXCell : Cell → XCell
  | Cell.na => XCell.empty
  | Cell.num q => XCell.number q
  | Cell.str s => XCell.text s
  | Cell.bool b => XCell.bool b

/-- `df.to_excel(buffer, index=False)`: a header row of the column names,
then one worksheet row per table row. -/
def excelWrite (t : Table) : List (List XCell) :=
  (t.colNames.map XCell.text) :: t.rows.map (fun r => r.map cellToXCell)

/-- The cell `read_excel` makes of one worksheet cell in a column of the
given inferred dtype: blanks are missing, numbers and native booleans carry
over, text has the default missing-value markers applied and — in a column
inferred boolean, via `maybe_convert_bool` — the default true/false literals
converted to booleans. -/
def xcellField (dt : DType) : XCell → Cell
  | XCell.empty => Cell.na
  | XCell.number q => Cell.num q
  | XCell.bool b => Cell.bool b
  | XCell.text s =>
    if fieldIsNA s.data then Cell.na
    else
      match dt with
      | DType.boolean =>
        if trueStrings.contains s.data then Cell.bool true
        else if falseStrings.contains s.data then Cell.bool false
        else Cell.str s
      | _ => Cell.str s

/-- The column name read from a header cell. -/
def xcellName : XCell → String
  | XCell.text s => s
  | _ => ""

/-- Dtype inference of `read_excel` on one column of worksheet cells: blanks,
numbers and missing-value-marker text make a float column; otherwise blanks,
native booleans and boolean-literal or missing-value-marker text make a bool
column (`maybe_convert_bool` converts the whole column or nothing); any other
mix stays `object` (text), its values kept as they are. -/
def inferXType (xs : List XCell) : DType :=
  if xs.all (fun x =>
      match x with
      | XCell.text s => fieldIsNA s.data
      | XCell.bool _ => false
      | _ => true) then DType.numeric
  else if xs.all (fun x =>
      match x with
      | XCell.text s => fieldBoolOrNA s.data
      | XCell.number _ => false
      | _ => true) then DType.boolean
  else DType.text

/-- Is a worksheet row entirely blank? -/
def rowBlank (r : List XCell) : Bool := r.all (fun x => x = XCell.empty)

/-- Trailing all-blank rows are not materialized in a written workbook. -/
def dropTrailingBlanks (rs : List (List XCell)) : List (List XCell) :=
  (rs.reverse.dropWhile rowBlank).reverse

/-- The core of `read_excel` on the stored rows: first row the column names,
require rectangular data, infer dtypes, convert cells. -/
def excelParse (hdr : List XCell) (dataRows : List (List XCell)) : Option Table :=
  let names := hdr.map xcellName
  if dataRows.all (fun r => r.length = names.length) then
    some
      { header := (List.range names.length).map (fun j =>
          (names.getD j "", inferXType (dataRows.map (fun r => r.getD j XCell.empty)))),
        rows := dataRows.map (fun r =>
          (List.range names.length).map (fun j =>
            xcellField (inferXType (dataRows.map (fun r2 => r2.getD j XCell.empty)))
              (r.getD j XCell.empty))) }
  else none

/-- `pd.read_excel` (core): drop the unstored trailing blank rows and parse. -/
def excelRead (ws : List (List XCell)) : Option Table :=
  match dropTrailingBlanks ws with
  | [] => none
  | hdr :: dataRows => excelParse hdr dataRows

/-- Observational equality used by the round-trip claim: same column names,
same row count, same cell values column by column (dtype tags are not
compared). -/
def obsEq (t u : Table) : Prop :=
  u.colNames = t.colNames ∧ u.nRows = t.nRows ∧
    ∀ j, j < t.nCols → u.colCells j = t.colCells j

instance (t u : Table) : Decidable (obsEq t u) := by
  unfold obsEq; infer_instance

/-! ## Per-file loading (the `try`/`except` loop over `uploaded_files`) -/

/-- The content of an uploaded file: a textual byte stream or an `.xlsx`
workbook container. -/
inductive FileData where
  | textData : List Char → FileData
  | workbook : List (List XCell) → FileData
deriving DecidableEq, Repr

/-- An uploaded file: its name and raw content. -/
structure UploadedFile where
  name : String
  data : FileData
deriving DecidableEq, Repr

/-- What one iteration of the upload loop produces for one file. -/
inductive LoadOutcome where
  | loaded : Table → LoadOutcome
  | unsupported : String → LoadOutcome
  | parseError : String → LoadOutcome
deriving DecidableEq, Repr

/-- `st.error(f"Error processing {file.name}: {e}")`. -/
def parseErrorMsg (name cause : String) : String :=
  "Error processing " ++ name ++ ": " ++ cause

/-- `st.error(f"Unsupported file type: {file_ext} ❌")`. -/
def unsupportedMsg (ext : String) : String :=
  "Unsupported file type: " ++ ext ++ " ❌"

/-- The `pd.read_csv(file)` call inside the `try`: success, or an exception
caught and reported by the `except` branch. -/
def loadCsvData (name : String) : FileData → LoadOutcome
  | FileData.textData cs =>
    match csvRead cs with
    | some t => LoadOutcome.loaded t
    | none => LoadOutcome.parseError (parseErrorMsg name "No columns to parse from file")
  | FileData.workbook _ =>
    LoadOutcome.parseError (parseErrorMsg name "invalid CSV content")

/-- The `pd.read_excel(file)` call inside the `try`, likewise. -/
def loadXlsxData (name : String) : FileData → LoadOutcome
  | FileData.workbook ws =>
    match excelRead ws with
    | some t => LoadOutcome.loaded t
    | none => LoadOutcome.parseError (parseErrorMsg name "Worksheet is empty")
  | FileData.textData _ =>
    LoadOutcome.parseError (parseErrorMsg name "File is not a zip file")

/-- One iteration of the upload loop: dispatch on the lower-cased extension,
parse inside `try`/`except`, report and skip on failure. -/
def loadFile (f : UploadedFile) : LoadOutcome :=
  if String.mk (fileExtChars f.name.data) = ".csv" then loadCsvData f.name f.data
  else if String.mk (fileExtChars f.name.data) = ".xlsx" then loadXlsxData f.name f.data
  else LoadOutcome.unsupported (unsupportedMsg (String.mk (fileExtChars f.name.data)))

/-- The whole loop: one outcome per uploaded file, in order; an error on one
file never stops the processing of the remaining files. -/
def processBatch (fs : List UploadedFile) : List (String × LoadOutcome) :=
  fs.map (fun f => (f.name, loadFile f))

/-- Occurrence test: does `pat` occur as a contiguous run inside `s`? -/
def occursIn (pat s : List Char) : Bool :=
  (List.range (s.length + 1)).any (fun i => pat.isPrefixOf (s.drop i))

/-- How many rows of `rs` equal `r`. -/
def countRow (rs : List (List Cell)) (r : List Cell) : ℕ :=
  (rs.filter (fun x => x = r)).length

/-- Characters a rendered decimal literal consists of: digits, the decimal
point and the minus sign. -/
def numChar (c : Char) : Bool :=
  (decide (48 ≤ c.toNat) && decide (c.toNat ≤ 57)) || c = '.' || c = '-'

/-- The field a cell renders to, with an irrelevant default for the
non-finite-decimal rationals that `csvWrite` rejects. -/
def cellFieldD (c : Cell) : List Char := (cellToField c).getD []

/-! ## Statement bundles for the checked properties -/

/-- Is the cell a number? -/
def cellIsNum : Cell → Bool
  | Cell.num _ => true
  | _ => false

/-- Is the cell a string? -/
def cellIsStr : Cell → Bool
  | Cell.str _ => true
  | _ => false

/-- Postcondition of `FillMissingNumeric` on a numeric column `j` with at
least one non-missing value: no missing values remain, previously non-missing
cells are unchanged, filled cells hold the pre-pass mean of the non-missing
values, non-numeric columns are untouched, and the shape is preserved. -/
def FillPost (t : Table) (j : ℕ) : Prop :=
  (∀ c ∈ (fillMissingNumeric t).colCells j, c ≠ Cell.na) ∧
  (∀ i : ℕ, (t.colCells j).getD i Cell.na ≠ Cell.na →
      ((fillMissingNumeric t).colCells j).getD i Cell.na = (t.colCells j).getD i Cell.na) ∧
  (∀ i : ℕ, i < t.nRows → (t.colCells j).getD i Cell.na = Cell.na →
      ((fillMissingNumeric t).colCells j).getD i Cell.na =
        Cell.num ((colNums (t.colCells j)).sum / ((colNums (t.colCells j)).length : ℚ))) ∧
  (∀ k : ℕ, k < t.nCols → t.colType k ≠ DType.numeric →
      (fillMissingNumeric t).colCells k = t.colCells k) ∧
  (fillMissingNumeric t).header = t.header ∧ (fillMissingNumeric t).nRows = t.nRows

/-- Postcondition of a non-empty column selection: exactly the selected
columns in selection order, all rows kept, selected columns unchanged. -/
def SelectPost (t : Table) (sel : List String) : Prop :=
  (selectColumns t sel).colNames = sel ∧
  (selectColumns t sel).nRows = t.nRows ∧
  ∀ s ∈ sel, (selectColumns t sel).colByName s = t.colByName s

/-- A column name that survives the CSV header line verbatim: non-empty and
free of separators, quotes and newlines. -/
def nameOkCSV (s : String) : Prop :=
  s.data ≠ [] ∧ ∀ ch ∈ s.data, csvSpecial ch = false

/-- A cell whose CSV field reads back as the very same cell: numbers must
have a finite decimal form (every float64 does); text must be non-empty,
unquoted, not a missing-value marker, not a numeric literal, not an infinity
literal and not a boolean literal; boolean cells are outside the stated
domain (their fields reload as booleans of `bool` dtype, not as values of
the original column). -/
def cellOkCSV (c : Cell) : Prop :=
  match c with
  | Cell.na => True
  | Cell.num q => (decimalChars q).isSome = true
  | Cell.bool _ => False
  | Cell.str s =>
      s.data ≠ [] ∧ (∀ ch ∈ s.data, csvSpecial ch = false) ∧
      fieldIsNA s.data = false ∧ parseNumChars s.data = none ∧
      s.data.map Char.toLower ∉ infStringsLower ∧
      fieldBoolLike s.data = false

/-- A column as a real dataframe stores it: either a float64 column (numbers
and missing values) or an object column of strings and missing values; a
mixed column would come back from CSV with its numbers turned into text. -/
def colHomog (cells : List Cell) : Prop :=
  (∀ c ∈ cells, c = Cell.na ∨ cellIsNum c = true) ∨
  (∀ c ∈ cells, c = Cell.na ∨ cellIsStr c = true)

/-- Hypotheses under which the CSV round trip is exact. -/
def CsvRoundTripOK (t : Table) : Prop :=
  t.WF ∧ t.header ≠ [] ∧ t.colNames.Nodup ∧
  (∀ s ∈ t.colNames, nameOkCSV s) ∧
  (∀ r ∈ t.rows, ∀ c ∈ r, cellOkCSV c) ∧
  (∀ j, j < t.nCols → colHomog (t.colCells j)) ∧
  (t.nCols = 1 → ∀ r ∈ t.rows, ∀ c ∈ r, c ≠ Cell.na)

/-- A cell whose Excel round trip is exact: text must not be a missing-value
marker (the empty string is one) and not a boolean literal; boolean cells
are outside the stated domain. -/
def cellOkX : Cell → Prop
  | Cell.str s => fieldIsNA s.data = false ∧ fieldBoolLike s.data = false
  | Cell.bool _ => False
  | _ => True

/-- Hypotheses under which the Excel round trip is exact. -/
def ExcelRoundTripOK (t : Table) : Prop :=
  t.WF ∧ t.header ≠ [] ∧ t.colNames.Nodup ∧
  (∀ s ∈ t.colNames, s ≠ "") ∧
  (∀ r ∈ t.rows, ∀ c ∈ r, cellOkX c) ∧
  (∀ r, t.rows.getLast? = some r → ∃ c ∈ r, c ≠ Cell.na)

/-- The round-trip property for the CSV format. -/
def RoundTripCsv (t : Table) : Prop :=
  ∃ bytes, csvWrite t = some bytes ∧ ∃ u, csvRead bytes = some u ∧ obsEq t u

/-- The round-trip property for the Excel format. -/
def RoundTripExcel (t : Table) : Prop :=
  ∃ u, excelRead (excelWrite t) = some u ∧ obsEq t u

instance : DecidablePred nameOkCSV := fun s => by
  unfold nameOkCSV; infer_instance

instance : DecidablePred cellOkCSV := fun c => by
  unfold cellOkCSV
  cases c <;> infer_instance

instance : DecidablePred colHomog := fun cells => by
  unfold colHomog; infer_instance

instance : DecidablePred cellOkX := fun c => by
  cases c <;> (unfold cellOkX; infer_instance)

instance : DecidablePred CsvRoundTripOK := fun t => by
  unfold CsvRoundTripOK; infer_instance

instance : DecidablePred ExcelRoundTripOK := fun t => by
  unfold ExcelRoundTripOK; infer_instance

/-! ## Concrete tables and files used as witnesses and counterexamples -/

/-- Spec scenario: a numeric column `[10, NaN, 30]`. -/
def Tfill : Table :=
  ⟨[("a", DType.numeric)], [[Cell.num 10], [Cell.na], [Cell.num 30]]⟩

/-- Spec scenario: rows `[1,"a"],[1,"a"],[2,"b"]` with columns `[id,name]`. -/
def Tdup : Table :=
  ⟨[("id", DType.numeric), ("name", DType.text)],
   [[Cell.num 1, Cell.str "a"], [Cell.num 1, Cell.str "a"], [Cell.num 2, Cell.str "b"]]⟩

/-- Duplicate rows that agree by both being missing in the second column. -/
def TdupNA : Table :=
  ⟨[("id", DType.numeric), ("name", DType.text)],
   [[Cell.num 1, Cell.na], [Cell.num 1, Cell.na], [Cell.num 2, Cell.str "b"]]⟩

/-- A numeric column that is entirely missing. -/
def Tallna : Table :=
  ⟨[("a", DType.numeric)], [[Cell.na], [Cell.na]]⟩

/-- Spec scenario: columns `[id, name, score]`. -/
def Tsel : Table :=
  ⟨[("id", DType.numeric), ("name", DType.text), ("score", DType.numeric)],
   [[Cell.num 1, Cell.str "x", Cell.num 5], [Cell.num 2, Cell.str "y", Cell.num 7]]⟩

/-- Two numeric columns, one row. -/
def Tviz2 : Table :=
  ⟨[("a", DType.numeric), ("b", DType.numeric)], [[Cell.num 1, Cell.num 2]]⟩

/-- One numeric column, one row. -/
def Tviz1 : Table :=
  ⟨[("a", DType.numeric)], [[Cell.num 1]]⟩

/-- A table with no numeric column. -/
def Ttext : Table :=
  ⟨[("s", DType.text)], [[Cell.str "x"]]⟩

/-- A text column holding the string `"1"`: its CSV field reads back as the
number `1`. -/
def TcsvC : Table :=
  ⟨[("a", DType.text)], [[Cell.str "1"]]⟩

/-- What `TcsvC` reloads as from CSV. -/
def TcsvC2 : Table :=
  ⟨[("a", DType.numeric)], [[Cell.num 1]]⟩

/-- A well-behaved table for the round-trip witness: a numeric column with a
missing value and a fractional value, and a text column with a missing
value. -/
def Tround : Table :=
  ⟨[("id", DType.numeric), ("name", DType.text)],
   [[Cell.num 10, Cell.str "ab"], [Cell.na, Cell.str "cd"],
    [Cell.num (⟨5, 2, by decide, by decide⟩ : ℚ), Cell.na]]⟩

/-- A loadable CSV upload. -/
def fCsv : UploadedFile := ⟨"data.csv", FileData.textData ("a\n1\n".data)⟩

/-- An upload with an unsupported extension. -/
def fTxt : UploadedFile := ⟨"notes.txt", FileData.textData ("hello".data)⟩

/-- A `.csv` upload whose content fails to parse (empty stream). -/
def fBad : UploadedFile := ⟨"bad.csv", FileData.textData []⟩

/-! ### Lemmas about the duplicate-removal scan -/

theorem dropDupAux_sublist {α : Type} [DecidableEq α] (seen : List α) (l : List α) :
    (dropDupAux seen l).Sublist l := by
  induction l generalizing seen with
  | nil => simp [dropDupAux]
  | cons r rs ih =>
    simp only [dropDupAux]
    by_cases h : r ∈ seen
    · simp only [h, if_true]
      exact (ih seen).trans (List.sublist_cons_self r rs)
    · simp only [h, if_false]
      exact (ih (r :: seen)).cons₂ r

theorem not_mem_seen_of_mem_dropDupAux {α : Type} [DecidableEq α]
    {seen : List α} {l : List α} {x : α} (hx : x ∈ dropDupAux seen l) : x ∉ seen := by
  induction l generalizing seen with
  | nil => simp [dropDupAux] at hx
  | cons r rs ih =>
    simp only [dropDupAux] at hx
    by_cases h : r ∈ seen
    · simp only [h, if_true] at hx
      exact ih hx
    · simp only [h, if_false, List.mem_cons] at hx
      rcases hx with rfl | hx
      · exact h
      · have := ih hx
        intro hc
        exact this (List.mem_cons_of_mem _ hc)

theorem nodup_dropDupAux {α : Type} [DecidableEq α] (seen : List α) (l : List α) :
    (dropDupAux seen l).Nodup := by
  induction l generalizing seen with
  | nil => simp [dropDupAux]
  | cons r rs ih =>
    simp only [dropDupAux]
    by_cases h : r ∈ seen
    · simp only [h, if_true]
      exact ih seen
    · simp only [h, if_false]
      refine List.Nodup.cons ?_ (ih (r :: seen))
      intro hc
      exact not_mem_seen_of_mem_dropDupAux hc (List.mem_cons_self r seen)

theorem dropDupAux_eq_self {α : Type} [DecidableEq α] {seen : List α} {l : List α}
    (hl : l.Nodup) (hdisj : ∀ x ∈ l, x ∉ seen) : dropDupAux seen l = l := by
  induction l generalizing seen with
  | nil => simp [dropDupAux]
  | cons r rs ih =>
    have hr : r ∉ seen := hdisj r (List.mem_cons_self r rs)
    simp only [dropDupAux, hr, if_false]
    congr 1
    refine ih (List.Nodup.of_cons hl) ?_
    intro x hx
    simp only [List.mem_cons, not_or]
    exact ⟨fun hc => (List.nodup_cons.mp hl).1 (hc ▸ hx), hdisj x (List.mem_cons_of_mem _ hx)⟩

theorem mem_dropDupAux_of_mem {α : Type} [DecidableEq α]
    {seen : List α} {l : List α} {x : α} (hx : x ∈ l) (hs : x ∉ seen) :
    x ∈ dropDupAux seen l := by
  induction l generalizing seen with
  | nil => simp at hx
  | cons r rs ih =>
    simp only [dropDupAux]
    by_cases h : r ∈ seen
    · simp only [h, if_true]
      rcases List.mem_cons.mp hx with rfl | hx'
      · exact absurd h hs
      · exact ih hx' hs
    · simp only [h, if_false, List.mem_cons]
      rcases List.mem_cons.mp hx with rfl | hx'
      · exact Or.inl rfl
      · by_cases hxr : x = r
        · exact Or.inl hxr
        · refine Or.inr (ih hx' ?_)
          simp only [List.mem_cons, not_or]
          exact ⟨hxr, hs⟩

theorem dropDupAux_seen_cons {α : Type} [DecidableEq α] (x : α) (seen : List α) (l : List α) :
    dropDupAux (x :: seen) l = dropDupAux seen (l.filter (fun y => y ≠ x)) := by
  match l with
  | [] => simp [dropDupAux]
  | r :: rs =>
    by_cases hrx : r = x
    · subst hrx
      have hL : dropDupAux (r :: seen) (r :: rs) = dropDupAux (r :: seen) rs := by
        simp [dropDupAux]
      have hF : (r :: rs).filter (fun y => y ≠ r) = rs.filter (fun y => y ≠ r) := by
        simp [List.filter_cons]
      rw [hL, hF]
      exact dropDupAux_seen_cons r seen rs
    · have hF : (r :: rs).filter (fun y => y ≠ x) = r :: rs.filter (fun y => y ≠ x) := by
        simp [List.filter_cons, hrx]
      by_cases hrs : r ∈ seen
      · have hL : dropDupAux (x :: seen) (r :: rs) = dropDupAux (x :: seen) rs := by
          simp [dropDupAux, hrs]
        have hR : dropDupAux seen (r :: rs.filter (fun y => y ≠ x))
            = dropDupAux seen (rs.filter (fun y => y ≠ x)) := by
          simp [dropDupAux, hrs]
        rw [hL, hF, hR]
        exact dropDupAux_seen_cons x seen rs
      · have hmem : r ∉ x :: seen := by simp [hrx, hrs]
        have hL : dropDupAux (x :: seen) (r :: rs) = r :: dropDupAux (r :: x :: seen) rs := by
          simp [dropDupAux, hmem]
        have hR : dropDupAux seen (r :: rs.filter (fun y => y ≠ x))
            = r :: dropDupAux (r :: seen) (rs.filter (fun y => y ≠ x)) := by
          simp [dropDupAux, hrs]
        rw [hL, hF, hR]
        congr 1
        rw [dropDupAux_seen_cons r (x :: seen) rs,
          dropDupAux_seen_cons x seen (rs.filter (fun y => y ≠ r)),
          dropDupAux_seen_cons r seen (rs.filter (fun y => y ≠ x)),
          List.filter_filter, List.filter_filter]
        congr 1
        apply List.filter_congr
        intro y _
        exact Bool.and_comm _ _
termination_by l.length
decreasing_by
  all_goals simp only [List.length_cons]
  all_goals first
    | exact Nat.lt_succ_self _
    | exact Nat.lt_succ_of_le (List.length_filter_le _ _)

theorem dropDup_idem {α : Type} [DecidableEq α] (l : List α) :
    dropDupAux [] (dropDupAux [] l) = dropDupAux [] l :=
  dropDupAux_eq_self (nodup_dropDupAux [] l) (fun _ _ => List.not_mem_nil _)

theorem dropDup_keepFirst {α : Type} [DecidableEq α] (r : α) (rs : List α) :
    dropDupAux [] (r :: rs) = r :: dropDupAux [] (rs.filter (fun y => y ≠ r)) := by
  simp only [dropDupAux, List.not_mem_nil, if_false]
  rw [dropDupAux_seen_cons]

theorem countRow_eq_one {rs : List (List Cell)} {r : List Cell}
    (hnd : rs.Nodup) (hm : r ∈ rs) : countRow rs r = 1 := by
  induction rs with
  | nil => simp at hm
  | cons a as ih =>
    have hna : a ∉ as := (List.nodup_cons.mp hnd).1
    rcases List.mem_cons.mp hm with rfl | hmem
    · have hz : as.filter (fun x => x = r) = [] := by
        rw [List.filter_eq_nil_iff]
        intro x hx
        simp only [decide_eq_true_eq]
        intro hc
        exact hna (hc ▸ hx)
      unfold countRow
      rw [List.filter_cons]
      simp [hz]
    · have har : ¬(a = r) := fun hc => hna (hc ▸ hmem)
      unfold countRow
      rw [List.filter_cons]
      simp only [har, decide_False, if_neg, Bool.false_eq_true, not_false_eq_true]
      exact ih (List.nodup_cons.mp hnd).2 hmem

/-- **C2.** `RemoveDuplicates` is idempotent; it keeps, in original relative
order, exactly the rows with no equal earlier row (the head of the table is
kept and all its later copies dropped, recursively); the surviving rows are
pairwise distinct and every original row is still represented; the reported
removed count equals the row count before minus the row count after; the
header is untouched. -/
theorem C2_removeDuplicates (t : Table) :
    removeDuplicates (removeDuplicates t) = removeDuplicates t ∧
    (removeDuplicates t).rows.Sublist t.rows ∧
    (removeDuplicates t).rows.Nodup ∧
    (∀ r ∈ t.rows, r ∈ (removeDuplicates t).rows) ∧
    (∀ r rs, t.rows = r :: rs →
      (removeDuplicates t).rows = r :: dropDupAux [] (rs.filter (fun y => y ≠ r))) ∧
    removedCount t = t.nRows - (removeDuplicates t).nRows ∧
    (removeDuplicates t).header = t.header := by
  refine ⟨?_, ?_, ?_, ?_, ?_, rfl, rfl⟩
  · show ({ removeDuplicates t with
        rows := dropDupAux [] (removeDuplicates t).rows } : Table) = removeDuplicates t
    have h : dropDupAux [] (removeDuplicates t).rows = (removeDuplicates t).rows :=
      dropDup_idem t.rows
    rw [h]
  · exact dropDupAux_sublist [] t.rows
  · exact nodup_dropDupAux [] t.rows
  · intro r hr
    exact mem_dropDupAux_of_mem hr (List.not_mem_nil _)
  · intro r rs hrows
    show dropDupAux [] t.rows = _
    rw [hrows]
    exact dropDup_keepFirst r rs

/-- Closed check of C2 on the spec scenario `[1,"a"],[1,"a"],[2,"b"]`:
idempotence comes from the theorem, and the surviving rows and the reported
count are the ones the spec names. -/
theorem C2_removeDuplicates_witness :
    removeDuplicates (removeDuplicates Tdup) = removeDuplicates Tdup ∧
    (removeDuplicates Tdup).rows =
      [[Cell.num 1, Cell.str "a"], [Cell.num 2, Cell.str "b"]] ∧
    removedCount Tdup = 1 :=
  ⟨(C2_removeDuplicates Tdup).1, by decide, by decide⟩

/-- **C10.** Duplicate detection compares rows structurally, missing values
included: every row of the input is represented exactly once among the
survivors — so a later row matching an earlier one even in its missing
positions is removed — although scalar comparison of a missing value with
itself is false. -/
theorem C10_removeDuplicates_missing (t : Table) :
    (∀ r ∈ t.rows, countRow (removeDuplicates t).rows r = 1) ∧
    Cell.scalarEq Cell.na Cell.na = false := by
  refine ⟨?_, rfl⟩
  intro r hr
  exact countRow_eq_one (nodup_dropDupAux [] t.rows)
    (mem_dropDupAux_of_mem hr (List.not_mem_nil _))

/-- Closed check of C10: the row `[1, NA]` occurs twice in `TdupNA` but once
after `RemoveDuplicates`, and the survivors are the first occurrences. -/
theorem C10_removeDuplicates_missing_witness :
    countRow (removeDuplicates TdupNA).rows [Cell.num 1, Cell.na] = 1 ∧
    countRow TdupNA.rows [Cell.num 1, Cell.na] = 2 ∧
    (removeDuplicates TdupNA).rows =
      [[Cell.num 1, Cell.na], [Cell.num 2, Cell.str "b"]] ∧
    Cell.scalarEq Cell.na Cell.na = false :=
  ⟨(C10_removeDuplicates_missing TdupNA).1 [Cell.num 1, Cell.na] (by decide),
    by decide, by decide, by decide⟩

/-! ### Lemmas about mean imputation -/

theorem length_colCells (t : Table) (j : ℕ) : (t.colCells j).length = t.nRows := by
  simp [Table.colCells, Table.nRows]

theorem colCells_fillMissingNumeric (t : Table) (hWF : t.WF) {j : ℕ} (hj : j < t.nCols) :
    (fillMissingNumeric t).colCells j = (t.colCells j).map (fillCell (t.colFill j)) := by
  show (t.rows.map _).map _ = (t.rows.map _).map _
  rw [List.map_map, List.map_map]
  apply List.map_congr_left
  intro r hr
  have hlen : r.length = t.nCols := hWF r hr
  have hz : j < (List.zipWith fillCell ((List.range t.nCols).map t.colFill) r).length := by
    rw [List.length_zipWith]
    simp [hlen, hj]
  simp only [Function.comp]
  rw [List.getD_eq_getElem _ _ hz, List.getElem_zipWith,
    List.getD_eq_getElem _ _ (by omega : j < r.length)]
  congr 1
  rw [List.getElem_map, List.getElem_range]

theorem fillCell_ne_na {q : ℚ} (c : Cell) : fillCell (some q) c ≠ Cell.na := by
  cases c <;> simp [fillCell]

theorem fillCell_none (c : Cell) : fillCell none c = c := by
  cases c <;> simp [fillCell]

theorem fillCell_of_ne_na {m : Option ℚ} {c : Cell} (h : c ≠ Cell.na) : fillCell m c = c := by
  cases c with
  | na => exact absurd rfl h
  | num q => rfl
  | str s => rfl
  | bool b => rfl

theorem meanOfCells_eq_some {cells : List Cell} {q : ℚ} (h : Cell.num q ∈ cells) :
    meanOfCells cells = some ((colNums cells).sum / ((colNums cells).length : ℚ)) := by
  have hq : q ∈ colNums cells := List.mem_filterMap.mpr ⟨Cell.num q, h, rfl⟩
  have hne : (colNums cells).length ≠ 0 := by
    intro h0
    rw [List.length_eq_zero] at h0
    rw [h0] at hq
    exact List.not_mem_nil q hq
  unfold meanOfCells
  rw [if_neg hne]

theorem colNums_eq_nil_of_all_na {cells : List Cell} (h : ∀ c ∈ cells, c = Cell.na) :
    colNums cells = [] := by
  unfold colNums
  rw [List.filterMap_eq_nil_iff]
  intro c hc
  rw [h c hc]
  rfl

/-- **C1.** For a well-formed table and a numeric column `j` with at least one
non-missing value: after `FillMissingNumeric`, column `j` has no missing
values, previously non-missing values are unchanged, each filled cell holds
the arithmetic mean of the column's pre-pass non-missing values, non-numeric
columns are untouched and the shape is preserved. -/
theorem C1_fillMissingNumeric (t : Table) (hWF : t.WF) (j : ℕ) (hj : j < t.nCols)
    (hty : t.colType j = DType.numeric)
    (hex : ∃ q : ℚ, Cell.num q ∈ t.colCells j) : FillPost t j := by
  obtain ⟨q, hq⟩ := hex
  have hmean := meanOfCells_eq_some hq
  have hfill : t.colFill j =
      some ((colNums (t.colCells j)).sum / ((colNums (t.colCells j)).length : ℚ)) := by
    unfold Table.colFill
    rw [if_pos hty, hmean]
  have hcol := colCells_fillMissingNumeric t hWF hj
  refine ⟨?_, ?_, ?_, ?_, rfl, by simp [fillMissingNumeric, Table.nRows]⟩
  · intro c hc
    rw [hcol, hfill] at hc
    obtain ⟨x, _, rfl⟩ := List.mem_map.mp hc
    exact fillCell_ne_na x
  · intro i hne
    by_cases hi : i < (t.colCells j).length
    · rw [hcol, List.getD_eq_getElem _ _ (by rw [List.length_map]; exact hi),
        List.getD_eq_getElem _ _ hi, List.getElem_map]
      apply fillCell_of_ne_na
      intro hna
      apply hne
      rw [List.getD_eq_getElem _ _ hi, hna]
    · exact absurd (List.getD_eq_default _ _ (by omega)) hne
  · intro i hi hna
    have hi' : i < (t.colCells j).length := by rw [length_colCells]; exact hi
    rw [hcol, List.getD_eq_getElem _ _ (by rw [List.length_map]; exact hi'),
      List.getElem_map]
    have hcell : (t.colCells j)[i] = Cell.na := by
      rw [← List.getD_eq_getElem _ _ hi']
      exact hna
    rw [hcell, hfill]
    rfl
  · intro k hk hkty
    have hcolk := colCells_fillMissingNumeric t hWF hk
    have hnone : t.colFill k = none := by
      unfold Table.colFill
      rw [if_neg hkty]
    rw [hcolk, hnone]
    apply List.map_id''
    exact fillCell_none

/-- Closed check of C1 on the spec scenario `[10, NaN, 30]`: the hypotheses
hold, the postcondition follows from the theorem, and the filled column is
`[10, 20, 30]`. -/
theorem C1_fillMissingNumeric_witness :
    Tfill.WF ∧ 0 < Tfill.nCols ∧ Tfill.colType 0 = DType.numeric ∧
    FillPost Tfill 0 ∧
    (fillMissingNumeric Tfill).colCells 0 = [Cell.num 10, Cell.num 20, Cell.num 30] := by
  refine ⟨by decide, by decide, by decide,
    C1_fillMissingNumeric Tfill (by decide) 0 (by decide) (by decide) ⟨10, by decide⟩, ?_⟩
  have h1 : colNums (Tfill.colCells 0) = [10, 30] := rfl
  have hmean : Tfill.colFill 0 = some 20 := by
    unfold Table.colFill
    rw [if_pos (by decide), meanOfCells_eq_some (q := 10) (by decide), h1]
    norm_num
  rw [colCells_fillMissingNumeric Tfill (by decide) (show 0 < Tfill.nCols by decide), hmean]
  rfl

/-- **C9.** On a numeric column that is entirely missing, `FillMissingNumeric`
returns normally (the undefined mean means no fill value): the column is left
as it was, the shape is preserved, and the result is a well-formed table —
there is no crash. -/
theorem C9_fillMissingNumeric_all_missing (t : Table) (hWF : t.WF) (j : ℕ) (hj : j < t.nCols)
    (hall : ∀ c ∈ t.colCells j, c = Cell.na) :
    (fillMissingNumeric t).colCells j = t.colCells j ∧
    (fillMissingNumeric t).header = t.header ∧
    (fillMissingNumeric t).nRows = t.nRows ∧
    (fillMissingNumeric t).WF := by
  have hnil : colNums (t.colCells j) = [] := colNums_eq_nil_of_all_na hall
  have hnone : t.colFill j = none := by
    unfold Table.colFill
    by_cases h : t.colType j = DType.numeric
    · rw [if_pos h]
      unfold meanOfCells
      rw [hnil]
      rfl
    · rw [if_neg h]
  refine ⟨?_, rfl, by simp [fillMissingNumeric, Table.nRows], ?_⟩
  · rw [colCells_fillMissingNumeric t hWF hj, hnone]
    apply List.map_id''
    exact fillCell_none
  · intro r hr
    show r.length = t.nCols
    obtain ⟨r0, hr0, rfl⟩ := List.mem_map.mp hr
    rw [List.length_zipWith]
    have hlen := hWF r0 hr0
    simp [Table.nCols, hlen]

/-- Closed check of C9: on the all-missing numeric column of `Tallna`, the
fill pass returns the table unchanged. -/
theorem C9_fillMissingNumeric_all_missing_witness :
    Tallna.WF ∧ 0 < Tallna.nCols ∧
    (fillMissingNumeric Tallna).colCells 0 = Tallna.colCells 0 ∧
    (fillMissingNumeric Tallna).WF :=
  ⟨by decide, by decide,
    (C9_fillMissingNumeric_all_missing Tallna (by decide) 0 (by decide)
      (by decide)).1,
    (C9_fillMissingNumeric_all_missing Tallna (by decide) 0 (by decide)
      (by decide)).2.2.2⟩

/-! ### Column selection -/

/-- **C4.** For a non-empty selection of existing column names, the selection
step returns exactly those columns in selection order with all rows and the
selected columns' values preserved; the empty selection applies no filter. -/
theorem C4_selectColumns (t : Table) (_hWF : t.WF) (sel : List String)
    (_hnodup : t.colNames.Nodup) (hsub : ∀ s ∈ sel, s ∈ t.colNames) (hne : sel ≠ []) :
    SelectPost t sel ∧ selectColumns t [] = t := by
  have hrows : (selectColumns t sel).rows =
      t.rows.map (fun r => (sel.map (fun s => t.colNames.indexOf s)).map
        (fun j => r.getD j Cell.na)) := by
    simp only [selectColumns, if_neg hne]
  have hhdr : (selectColumns t sel).header =
      (sel.map (fun s => t.colNames.indexOf s)).map
        (fun j => t.header.getD j ("", DType.text)) := by
    simp only [selectColumns, if_neg hne]
  have hnames : (selectColumns t sel).colNames = sel := by
    unfold Table.colNames
    rw [hhdr, List.map_map, List.map_map]
    conv_rhs => rw [← List.map_id sel]
    apply List.map_congr_left
    intro s hs
    have hlt : t.colNames.indexOf s < t.colNames.length :=
      List.indexOf_lt_length.mpr (hsub s hs)
    have hlt2 : t.colNames.indexOf s < t.header.length := by
      rw [Table.colNames, List.length_map] at hlt
      exact hlt
    simp only [Function.comp, id]
    rw [List.getD_eq_getElem _ _ hlt2]
    have hg : t.colNames.get ⟨t.colNames.indexOf s, hlt⟩ = s := List.indexOf_get hlt
    rw [List.get_eq_getElem] at hg
    unfold Table.colNames at hg
    rw [List.getElem_map] at hg
    exact hg
  refine ⟨⟨hnames, ?_, ?_⟩, by simp [selectColumns]⟩
  · show (selectColumns t sel).rows.length = t.rows.length
    rw [hrows, List.length_map]
  · intro s hs
    have hislt : sel.indexOf s < sel.length := List.indexOf_lt_length.mpr hs
    unfold Table.colByName
    rw [hnames]
    show (selectColumns t sel).rows.map _ = t.rows.map _
    rw [hrows, List.map_map]
    apply List.map_congr_left
    intro r _
    simp only [Function.comp]
    have hlen : sel.indexOf s < (sel.map (fun s => t.colNames.indexOf s)).length := by
      rw [List.length_map]
      exact hislt
    rw [List.getD_eq_getElem _ _ (by rw [List.length_map]; exact hlen),
      List.getElem_map, List.getElem_map]
    have hg : sel.get ⟨sel.indexOf s, hislt⟩ = s := List.indexOf_get hislt
    rw [List.get_eq_getElem] at hg
    rw [hg]

/-- Closed check of C4 on the spec scenario: selecting `["name"]` from
`[id, name, score]` yields exactly the `name` column with all rows. -/
theorem C4_selectColumns_witness :
    Tsel.WF ∧ Tsel.colNames.Nodup ∧ (∀ s ∈ (["name"] : List String), s ∈ Tsel.colNames) ∧
    SelectPost Tsel ["name"] ∧
    (selectColumns Tsel ["name"]).header = [("name", DType.text)] ∧
    (selectColumns Tsel ["name"]).rows = [[Cell.str "x"], [Cell.str "y"]] :=
  ⟨by decide, by decide, by decide,
    (C4_selectColumns Tsel (by decide) ["name"] (by decide) (by decide) (by decide)).1,
    by decide, by decide⟩

/-! ### The per-file load loop -/

theorem parseErrorMsg_contains_name (n c : String) :
    ∃ u v : List Char, (parseErrorMsg n c).data = u ++ (n.data ++ v) := by
  refine ⟨("Error processing " : String).data, ((": " : String) ++ c).data, ?_⟩
  simp [parseErrorMsg, String.data_append, List.append_assoc]

theorem exists_cause_of_parse_eq {name msg cause : String}
    (h : LoadOutcome.parseError (parseErrorMsg name cause) = LoadOutcome.parseError msg) :
    ∃ c, msg = parseErrorMsg name c ∧ ∃ u v : List Char, msg.data = u ++ (name.data ++ v) := by
  have hmsg : msg = parseErrorMsg name cause := ((LoadOutcome.parseError.injEq _ _).mp h).symm
  refine ⟨cause, hmsg, ?_⟩
  rw [hmsg]
  exact parseErrorMsg_contains_name _ _

/-- **C5.** Each uploaded file gets exactly one outcome, in order, and an
error on one file never prevents the processing of the others; a file whose
lower-cased extension is neither `.csv` nor `.xlsx` is reported unsupported;
a parse failure is reported with a message naming the file and the cause; no
outcome is anything but one of those three constructors (no unhandled
exception). -/
theorem C5_batch_error_handling (fs : List UploadedFile) :
    (processBatch fs).length = fs.length ∧
    (∀ f ∈ fs, (f.name, loadFile f) ∈ processBatch fs) ∧
    (∀ f : UploadedFile,
      String.mk (fileExtChars f.name.data) ≠ ".csv" →
      String.mk (fileExtChars f.name.data) ≠ ".xlsx" →
      loadFile f = LoadOutcome.unsupported
        (unsupportedMsg (String.mk (fileExtChars f.name.data)))) ∧
    (∀ f : UploadedFile, ∀ msg, loadFile f = LoadOutcome.parseError msg →
      ∃ cause, msg = parseErrorMsg f.name cause ∧
        ∃ u v : List Char, msg.data = u ++ (f.name.data ++ v)) ∧
    (∀ f : UploadedFile,
      (∃ u, loadFile f = LoadOutcome.loaded u) ∨
      (∃ m, loadFile f = LoadOutcome.unsupported m) ∨
      (∃ m, loadFile f = LoadOutcome.parseError m)) := by
  refine ⟨by simp [processBatch], ?_, ?_, ?_, ?_⟩
  · intro f hf
    exact List.mem_map_of_mem _ hf
  · intro f h1 h2
    unfold loadFile
    rw [if_neg h1, if_neg h2]
  · intro f msg h
    unfold loadFile at h
    by_cases h1 : String.mk (fileExtChars f.name.data) = ".csv"
    · rw [if_pos h1] at h
      cases hd : f.data with
      | textData cs =>
        rw [hd] at h
        simp only [loadCsvData] at h
        cases hcs : csvRead cs with
        | some u => rw [hcs] at h; exact absurd h (by simp)
        | none => rw [hcs] at h; exact exists_cause_of_parse_eq h
      | workbook ws =>
        rw [hd] at h
        exact exists_cause_of_parse_eq h
    · rw [if_neg h1] at h
      by_cases h2 : String.mk (fileExtChars f.name.data) = ".xlsx"
      · rw [if_pos h2] at h
        cases hd : f.data with
        | workbook ws =>
          rw [hd] at h
          simp only [loadXlsxData] at h
          cases hws : excelRead ws with
          | some u => rw [hws] at h; exact absurd h (by simp)
          | none => rw [hws] at h; exact exists_cause_of_parse_eq h
        | textData cs =>
          rw [hd] at h
          exact exists_cause_of_parse_eq h
      · rw [if_neg h2] at h
        exact absurd h (by simp)
  · intro f
    rcases h : loadFile f with u | m | m
    · exact Or.inl ⟨u, rfl⟩
    · exact Or.inr (Or.inl ⟨m, rfl⟩)
    · exact Or.inr (Or.inr ⟨m, rfl⟩)

/-- Closed check of C5 on a three-file batch: the `.txt` file is reported
unsupported (via the theorem), the malformed `.csv` is reported with a
message naming the file, and all three files get their outcome. -/
theorem C5_batch_error_handling_witness :
    loadFile fTxt = LoadOutcome.unsupported
      (unsupportedMsg (String.mk (fileExtChars fTxt.name.data))) ∧
    processBatch [fCsv, fTxt, fBad] =
      [("data.csv", LoadOutcome.loaded TcsvC2),
       ("notes.txt", LoadOutcome.unsupported (unsupportedMsg ".txt")),
       ("bad.csv",
         LoadOutcome.parseError
           (parseErrorMsg "bad.csv" "No columns to parse from file"))] :=
  ⟨(C5_batch_error_handling []).2.2.1 fTxt (by decide) (by decide), by decide⟩

/-! ### Visualization -/

/-- **C7.** With at least two numeric columns (and a non-empty numeric
subset), requesting a scatter plot does not render: evaluating the chart
expression raises a Python `NameError`, because the module never imports
`altair` and so the name `alt` is unbound. -/
theorem C7_scatter_name_error (t : Table)
    (hne : (numericSubset t).isEmpty = false)
    (h2 : 2 ≤ (numericSubset t).colNames.length) :
    visualize t ChartKind.scatter =
      VizResult.nameError "NameError: name alt is not defined" := by
  unfold visualize
  simp only [hne, Bool.false_eq_true, if_false]
  rw [if_pos h2, if_neg (by decide : ¬(("alt" : String) ∈ moduleGlobals))]

/-- Closed check of C7 at a table with two numeric columns. -/
theorem C7_scatter_name_error_witness :
    (numericSubset Tviz2).isEmpty = false ∧ 2 ≤ (numericSubset Tviz2).colNames.length ∧
    visualize Tviz2 ChartKind.scatter =
      VizResult.nameError "NameError: name alt is not defined" :=
  ⟨by decide, by decide, C7_scatter_name_error Tviz2 (by decide) (by decide)⟩

/-- **C8.** When the numeric subset is empty, every chart request yields the
non-fatal no-numeric-data notice; when a scatter plot is requested with fewer
than two numeric columns, it yields the non-fatal warning; in neither case is
an error raised. -/
theorem C8_visualize_warnings (t : Table) (kind : ChartKind) :
    ((numericSubset t).isEmpty = true → visualize t kind = VizResult.warnNoNumeric) ∧
    ((numericSubset t).isEmpty = false → (numericSubset t).colNames.length < 2 →
      visualize t ChartKind.scatter = VizResult.warnScatterNeedsTwo) ∧
    ((numericSubset t).isEmpty = true → ∀ m, visualize t kind ≠ VizResult.nameError m) ∧
    ((numericSubset t).isEmpty = false → (numericSubset t).colNames.length < 2 →
      ∀ m, visualize t ChartKind.scatter ≠ VizResult.nameError m) := by
  have h1 : (numericSubset t).isEmpty = true → visualize t kind = VizResult.warnNoNumeric := by
    intro h
    unfold visualize
    simp only [h, if_true]
  have h2 : (numericSubset t).isEmpty = false → (numericSubset t).colNames.length < 2 →
      visualize t ChartKind.scatter = VizResult.warnScatterNeedsTwo := by
    intro h hlt
    unfold visualize
    simp only [h, Bool.false_eq_true, if_false]
    rw [if_neg (by omega)]
  refine ⟨h1, h2, ?_, ?_⟩
  · intro h m
    rw [h1 h]
    simp
  · intro h hlt m
    rw [h2 h hlt]
    simp

/-- Closed check of C8: a table with no numeric column gets the notice, a
table with one numeric column gets the scatter warning. -/
theorem C8_visualize_warnings_witness :
    visualize Ttext ChartKind.bar = VizResult.warnNoNumeric ∧
    visualize Tviz1 ChartKind.scatter = VizResult.warnScatterNeedsTwo :=
  ⟨(C8_visualize_warnings Ttext ChartKind.bar).1 (by decide),
    (C8_visualize_warnings Tviz1 ChartKind.scatter).2.1 (by decide) (by decide)⟩

/-! ### Download naming -/

theorem isPrefixOf_iff_exists {l₁ l₂ : List Char} :
    l₁.isPrefixOf l₂ = true ↔ ∃ s, l₂ = l₁ ++ s := by
  induction l₁ generalizing l₂ with
  | nil =>
    simp [List.isPrefixOf]
  | cons a as ih =>
    cases l₂ with
    | nil => simp [List.isPrefixOf]
    | cons b bs =>
      simp only [List.isPrefixOf, Bool.and_eq_true, beq_iff_eq, ih, List.cons_append,
        List.cons.injEq]
      constructor
      · rintro ⟨rfl, s, rfl⟩
        exact ⟨s, rfl, rfl⟩
      · rintro ⟨s, rfl, rfl⟩
        exact ⟨rfl, s, rfl⟩

theorem occursIn_eq_true_iff {pat s : List Char} :
    occursIn pat s = true ↔ ∃ a b : List Char, s = a ++ (pat ++ b) := by
  unfold occursIn
  rw [List.any_eq_true]
  constructor
  · rintro ⟨i, _, hpre⟩
    obtain ⟨b, hb⟩ := isPrefixOf_iff_exists.mp hpre
    exact ⟨s.take i, b, by rw [← hb, List.take_append_drop]⟩
  · rintro ⟨a, b, rfl⟩
    refine ⟨a.length, ?_, ?_⟩
    · rw [List.mem_range]
      simp only [List.length_append]
      omega
    · rw [List.drop_left]
      exact isPrefixOf_iff_exists.mpr ⟨b, rfl⟩

theorem pyReplaceGo_nil (old new : List Char) (fuel : ℕ) :
    pyReplaceGo old new fuel [] = [] := by
  cases fuel <;> rfl

theorem pyReplaceGo_stem (old new : List Char) (hold : old ≠ []) :
    ∀ (stem : List Char) (fuel : ℕ), (stem ++ old).length ≤ fuel →
    occursIn old (stem ++ old.dropLast) = false →
    pyReplaceGo old new fuel (stem ++ old) = stem ++ new := by
  intro stem
  induction stem with
  | nil =>
    intro fuel hfuel _
    cases old with
    | nil => exact absurd rfl hold
    | cons o os =>
      cases fuel with
      | zero => simp at hfuel
      | succ f =>
        have hpre : (o :: os).isPrefixOf (o :: os) = true :=
          isPrefixOf_iff_exists.mpr ⟨[], by simp⟩
        simp only [List.nil_append, pyReplaceGo, hpre, if_true, List.length_cons,
          Nat.add_sub_cancel, List.drop_length, pyReplaceGo_nil, List.append_nil]
  | cons c cs ih =>
    intro fuel hfuel hocc
    have hocc' : occursIn old (cs ++ old.dropLast) = false := by
      cases hoc : occursIn old (cs ++ old.dropLast) with
      | false => rfl
      | true =>
        obtain ⟨a, b, hab⟩ := occursIn_eq_true_iff.mp hoc
        have htr : occursIn old ((c :: cs) ++ old.dropLast) = true :=
          occursIn_eq_true_iff.mpr ⟨c :: a, b, by simp [hab]⟩
        rw [hocc] at htr
        exact absurd htr (by simp)
    have hnpre : old.isPrefixOf (c :: (cs ++ old)) = false := by
      cases hp : old.isPrefixOf (c :: (cs ++ old)) with
      | false => rfl
      | true =>
        obtain ⟨suf, hsuf⟩ := isPrefixOf_iff_exists.mp hp
        have hlen : suf.length = cs.length + 1 := by
          have := congrArg List.length hsuf
          simp only [List.length_cons, List.length_append] at this
          omega
        have hsne : suf ≠ [] := by
          intro hc
          rw [hc] at hlen
          simp at hlen
        have hdl : (c :: cs) ++ old.dropLast = old ++ suf.dropLast := by
          have h1 : (c :: (cs ++ old)).dropLast = (c :: cs) ++ old.dropLast :=
            List.dropLast_append_of_ne_nil (c :: cs) hold
          have h2 : (old ++ suf).dropLast = old ++ suf.dropLast :=
            List.dropLast_append_of_ne_nil old hsne
          rw [← h1, hsuf, h2]
        have htr : occursIn old ((c :: cs) ++ old.dropLast) = true :=
          occursIn_eq_true_iff.mpr ⟨[], suf.dropLast, by simp [hdl]⟩
        rw [hocc] at htr
        exact absurd htr (by simp)
    cases fuel with
    | zero =>
      rw [List.cons_append, List.length_cons] at hfuel
      simp at hfuel
    | succ f =>
      have hf : (cs ++ old).length ≤ f := by
        rw [List.cons_append, List.length_cons] at hfuel
        omega
      have hstep : pyReplaceGo old new (f + 1) (c :: (cs ++ old)) =
          c :: pyReplaceGo old new f (cs ++ old) := by
        simp only [pyReplaceGo, hnpre, Bool.false_eq_true, if_false]
      rw [List.cons_append, hstep, ih f hf hocc', List.cons_append]

/-- **C6, counterexample.** For the upload name `A.CSV` converted to Excel,
the code's `str.replace` is case-sensitive: the lower-cased extension `.csv`
does not occur in the name, so the download keeps the name `A.CSV` instead of
the claimed `A.xlsx` (the stem `A` with the new extension). -/
theorem C6_download_name_counterexample :
    (downloadSpec ("A.CSV".data) TargetFormat.excel).fileName = "A.CSV".data ∧
    (downloadSpec ("A.CSV".data) TargetFormat.excel).fileName ≠ "A.xlsx".data ∧
    splitextChars ("A.CSV".data) = ("A".data, ".CSV".data) := by
  refine ⟨by decide, by decide, by decide⟩

/-- **C6, amended.** The download name is the original name with every
case-sensitive occurrence of the lower-cased extension replaced by `.csv` or
`.xlsx`; in particular, when the name ends with its lower-cased extension and
that extension occurs nowhere else in the name, the download name is
`<stem>.csv` or `<stem>.xlsx`, and the MIME type is `text/csv` for CSV and
the OOXML spreadsheet type for Excel. -/
theorem C6_download_name_amended (name stem : List Char) (fmt : TargetFormat)
    (hname : name = stem ++ fileExtChars name)
    (hext : fileExtChars name ≠ [])
    (hocc : occursIn (fileExtChars name) (stem ++ (fileExtChars name).dropLast) = false) :
    downloadSpec name fmt =
      ⟨stem ++ (match fmt with
        | TargetFormat.csv => ".csv".data
        | TargetFormat.excel => ".xlsx".data),
       match fmt with
       | TargetFormat.csv => mimeCSV
       | TargetFormat.excel => mimeXLSX⟩ := by
  have key : ∀ newx : List Char, pyReplace name (fileExtChars name) newx = stem ++ newx := by
    intro newx
    unfold pyReplace
    rw [if_neg hext]
    generalize hE : fileExtChars name = E at hname hext hocc ⊢
    rw [hname]
    exact pyReplaceGo_stem E newx hext stem (stem ++ E).length (Nat.le_refl _) hocc
  cases fmt with
  | csv =>
    show DownloadSpec.mk (pyReplace name (fileExtChars name) (".csv".data)) mimeCSV = _
    rw [key]
  | excel =>
    show DownloadSpec.mk (pyReplace name (fileExtChars name) (".xlsx".data)) mimeXLSX = _
    rw [key]

/-- Closed check of the amended C6 at `report.xlsx` converted to CSV: the
download is `report.csv` with MIME type `text/csv`. -/
theorem C6_download_name_amended_witness :
    ("report.xlsx".data = "report".data ++ fileExtChars ("report.xlsx".data)) ∧
    fileExtChars ("report.xlsx".data) ≠ [] ∧
    occursIn (fileExtChars ("report.xlsx".data))
      ("report".data ++ (fileExtChars ("report.xlsx".data)).dropLast) = false ∧
    downloadSpec ("report.xlsx".data) TargetFormat.csv = ⟨"report.csv".data, mimeCSV⟩ := by
  refine ⟨by decide, by decide, by decide, ?_⟩
  rw [C6_download_name_amended ("report.xlsx".data) ("report".data) TargetFormat.csv
    (by decide) (by decide) (by decide)]
  decide

/-! ### Digit strings -/

theorem digitChar_toNat {d : ℕ} (h : d < 10) : (digitChar d).toNat = 48 + d := by
  interval_cases d <;> decide

theorem natToChars_digits (n : ℕ) : ∀ c ∈ natToChars n, 48 ≤ c.toNat ∧ c.toNat ≤ 57 := by
  induction n using Nat.strong_induction_on with
  | _ n ih =>
    intro c hc
    rw [natToChars] at hc
    by_cases h : n < 10
    · rw [dif_pos h] at hc
      simp only [List.mem_singleton] at hc
      subst hc
      rw [digitChar_toNat h]
      omega
    · rw [dif_neg h] at hc
      rcases List.mem_append.mp hc with hc1 | hc2
      · exact ih (n / 10) (Nat.div_lt_self (by omega) (by omega)) c hc1
      · simp only [List.mem_singleton] at hc2
        subst hc2
        rw [digitChar_toNat (Nat.mod_lt _ (by omega))]
        omega

theorem natToChars_ne_nil (n : ℕ) : natToChars n ≠ [] := by
  rw [natToChars]
  by_cases h : n < 10
  · rw [dif_pos h]
    simp
  · rw [dif_neg h]
    simp

theorem goDigits_append (acc : ℕ) (xs ys : List Char) :
    goDigits acc (xs ++ ys) =
      match goDigits acc xs with
      | some m => goDigits m ys
      | none => none := by
  induction xs generalizing acc with
  | nil => rfl
  | cons c cs ih =>
    simp only [List.cons_append, List.append_eq, goDigits]
    by_cases h : 48 ≤ c.toNat ∧ c.toNat ≤ 57
    · rw [if_pos h, if_pos h, ih]
    · rw [if_neg h, if_neg h]

theorem goDigits_natToChars (n : ℕ) :
    ∀ acc : ℕ, goDigits acc (natToChars n) = some (acc * 10 ^ (natToChars n).length + n) := by
  induction n using Nat.strong_induction_on with
  | _ n ih =>
    intro acc
    rw [natToChars]
    by_cases h : n < 10
    · rw [dif_pos h]
      have htn : (digitChar n).toNat = 48 + n := digitChar_toNat h
      show goDigits acc [digitChar n] = _
      simp only [goDigits, htn]
      rw [if_pos (by omega : 48 ≤ 48 + n ∧ 48 + n ≤ 57)]
      rw [List.length_singleton, pow_one]
      congr 1
      omega
    · rw [dif_neg h]
      rw [goDigits_append]
      rw [ih (n / 10) (Nat.div_lt_self (by omega) (by omega)) acc]
      have htn : (digitChar (n % 10)).toNat = 48 + n % 10 :=
        digitChar_toNat (Nat.mod_lt _ (by omega))
      show goDigits (acc * 10 ^ (natToChars (n / 10)).length + n / 10)
        [digitChar (n % 10)] = _
      simp only [goDigits, htn]
      rw [if_pos (by omega : 48 ≤ 48 + n % 10 ∧ 48 + n % 10 ≤ 57)]
      rw [List.length_append, List.length_singleton]
      congr 1
      have hdm : 10 * (n / 10) + n % 10 = n := Nat.div_add_mod n 10
      have hp : (10 : ℕ) ^ ((natToChars (n / 10)).length + 1) =
          10 ^ (natToChars (n / 10)).length * 10 := pow_succ 10 _
      rw [hp]
      have hsub : 48 + n % 10 - 48 = n % 10 := by omega
      rw [hsub]
      generalize (10 : ℕ) ^ (natToChars (n / 10)).length = P
      calc 10 * (acc * P + n / 10) + n % 10
          = acc * (P * 10) + (10 * (n / 10) + n % 10) := by ring
        _ = acc * (P * 10) + n := by rw [hdm]

theorem goDigits_replicate_zero (z : ℕ) (ds : List Char) :
    goDigits 0 (List.replicate z '0' ++ ds) = goDigits 0 ds := by
  induction z with
  | zero => rfl
  | succ z ih =>
    rw [List.replicate_succ, List.cons_append]
    show goDigits 0 ('0' :: (List.replicate z '0' ++ ds)) = _
    have h : 48 ≤ ('0' : Char).toNat ∧ ('0' : Char).toNat ≤ 57 := by decide
    simp only [goDigits, h, and_self, if_true]
    have : 10 * 0 + (('0' : Char).toNat - 48) = 0 := by decide
    rw [this, ih]

theorem natToChars_length_le {n k : ℕ} (hn : n < 10 ^ k) (hk : 1 ≤ k) :
    (natToChars n).length ≤ k := by
  induction n using Nat.strong_induction_on generalizing k with
  | _ n ih =>
    rw [natToChars]
    by_cases h : n < 10
    · rw [dif_pos h]
      simpa using hk
    · rw [dif_neg h]
      rw [List.length_append, List.length_singleton]
      have hk2 : 2 ≤ k := by
        by_contra hlt
        have : k = 1 := by omega
        subst this
        simp only [pow_one] at hn
        omega
      have hdiv : n / 10 < 10 ^ (k - 1) := by
        rw [Nat.div_lt_iff_lt_mul (by omega : 0 < 10)]
        have : 10 ^ (k - 1) * 10 = 10 ^ k := by
          rw [← pow_succ]
          congr 1
          omega
        omega
      have := ih (n / 10) (Nat.div_lt_self (by omega) (by omega)) hdiv (by omega)
      omega

/-! ### Decimal rendering and parsing -/

theorem parseDigits_natToChars (n : ℕ) : parseDigits (natToChars n) = some n := by
  rw [parseDigits, if_neg (natToChars_ne_nil n), goDigits_natToChars]
  simp

theorem numChar_of_digit {c : Char} (h1 : 48 ≤ c.toNat) (h2 : c.toNat ≤ 57) :
    numChar c = true := by
  simp only [numChar, Bool.or_eq_true, Bool.and_eq_true, decide_eq_true_eq]
  exact Or.inl (Or.inl ⟨h1, h2⟩)

theorem numChar_toNat {c : Char} (h : numChar c = true) :
    c.toNat = 45 ∨ c.toNat = 46 ∨ (48 ≤ c.toNat ∧ c.toNat ≤ 57) := by
  simp only [numChar, Bool.or_eq_true, Bool.and_eq_true, decide_eq_true_eq] at h
  rcases h with (⟨h1, h2⟩ | rfl) | rfl
  · exact Or.inr (Or.inr ⟨h1, h2⟩)
  · exact Or.inr (Or.inl rfl)
  · exact Or.inl rfl

theorem numChar_not_special {c : Char} (h : numChar c = true) : csvSpecial c = false := by
  have ht := numChar_toNat h
  unfold csvSpecial
  simp only [Bool.or_eq_false_iff, decide_eq_false_iff_not]
  refine ⟨⟨⟨?_, ?_⟩, ?_⟩, ?_⟩ <;>
  · rintro rfl
    revert ht
    decide

theorem numChar_not_expMark {c : Char} (h : numChar c = true) :
    (decide (c = 'e') || decide (c = 'E')) = false := by
  have ht := numChar_toNat h
  simp only [Bool.or_eq_false_iff, decide_eq_false_iff_not]
  constructor <;>
  · rintro rfl
    revert ht
    decide

theorem numChar_ne_minus_toNat {c : Char} (h1 : 48 ≤ c.toNat) (h2 : c.toNat ≤ 57) :
    c ≠ '-' ∧ c ≠ '+' ∧ c ≠ '.' := by
  refine ⟨?_, ?_, ?_⟩ <;>
  · rintro rfl
    revert h1 h2
    decide

theorem decimalCharsNat_numChars (m k : ℕ) :
    ∀ c ∈ decimalCharsNat m k, numChar c = true := by
  intro c hc
  unfold decimalCharsNat at hc
  by_cases hk : k = 0
  · rw [if_pos hk] at hc
    obtain ⟨h1, h2⟩ := natToChars_digits m c hc
    exact numChar_of_digit h1 h2
  · rw [if_neg hk] at hc
    simp only [List.mem_append, List.mem_cons, List.mem_replicate] at hc
    rcases hc with hA | hdot | hrep | hfd
    · obtain ⟨h1, h2⟩ := natToChars_digits _ c hA
      exact numChar_of_digit h1 h2
    · subst hdot
      decide
    · rw [hrep.2]
      decide
    · obtain ⟨h1, h2⟩ := natToChars_digits _ c hfd
      exact numChar_of_digit h1 h2

theorem decimalCharsNat_head (m k : ℕ) :
    ∃ d ds, decimalCharsNat m k = d :: ds ∧ 48 ≤ d.toNat ∧ d.toNat ≤ 57 := by
  unfold decimalCharsNat
  by_cases hk : k = 0
  · rw [if_pos hk]
    obtain ⟨d, ds, hds⟩ := List.exists_cons_of_ne_nil (natToChars_ne_nil m)
    refine ⟨d, ds, hds, ?_⟩
    have := natToChars_digits m d (by rw [hds]; exact List.mem_cons_self _ _)
    exact this
  · rw [if_neg hk]
    obtain ⟨d, ds, hds⟩ := List.exists_cons_of_ne_nil (natToChars_ne_nil (m / 10 ^ k))
    rw [hds]
    refine ⟨d, _, rfl, ?_⟩
    have := natToChars_digits (m / 10 ^ k) d (by rw [hds]; exact List.mem_cons_self _ _)
    exact this

theorem splitOn_no_sep {sep : Char} {l : List Char} (h : ∀ c ∈ l, ¬(c = sep)) :
    l.splitOn sep = [l] := by
  unfold List.splitOn
  apply List.splitOnP_eq_single
  intro x hx
  simp only [beq_iff_eq]
  exact h x hx

theorem parseUnsigned_decimalCharsNat (m k : ℕ) :
    parseUnsigned (decimalCharsNat m k) = some ((m : ℚ) / ((10 : ℚ) ^ k)) := by
  by_cases hk : k = 0
  · subst hk
    have hd : decimalCharsNat m 0 = natToChars m := by
      unfold decimalCharsNat
      rw [if_pos rfl]
    rw [hd]
    unfold parseUnsigned
    have hsplit : (natToChars m).splitOn '.' = [natToChars m] := by
      apply splitOn_no_sep
      intro c hc
      obtain ⟨h1, h2⟩ := natToChars_digits m c hc
      exact (numChar_ne_minus_toNat h1 h2).2.2
    rw [hsplit]
    show (if natToChars m = [] then none
      else (goDigits 0 (natToChars m)).map (fun n => (n : ℚ))) = _
    rw [if_neg (natToChars_ne_nil m), goDigits_natToChars]
    simp
  · have hkpos : 1 ≤ k := by omega
    have hfd : (natToChars (m % 10 ^ k)).length ≤ k :=
      natToChars_length_le (Nat.mod_lt _ (by positivity)) hkpos
    have hD : decimalCharsNat m k =
        natToChars (m / 10 ^ k) ++ '.' ::
          (List.replicate (k - (natToChars (m % 10 ^ k)).length) '0' ++
            natToChars (m % 10 ^ k)) := by
      unfold decimalCharsNat
      rw [if_neg hk]
    set F := List.replicate (k - (natToChars (m % 10 ^ k)).length) '0' ++
      natToChars (m % 10 ^ k) with hF
    have hFlen : F.length = k := by
      rw [hF, List.length_append, List.length_replicate]
      omega
    have hsplit : (decimalCharsNat m k).splitOn '.' = [natToChars (m / 10 ^ k), F] := by
      rw [hD]
      unfold List.splitOn
      rw [List.splitOnP_first _ _ ?_ '.' (by simp)]
      · congr 1
        apply List.splitOnP_eq_single
        intro x hx
        simp only [beq_iff_eq]
        rw [hF] at hx
        simp only [List.mem_append, List.mem_replicate] at hx
        rcases hx with hrep | hfdmem
        · rw [hrep.2]
          decide
        · obtain ⟨h1, h2⟩ := natToChars_digits _ x hfdmem
          exact (numChar_ne_minus_toNat h1 h2).2.2
      · intro x hx
        simp only [beq_iff_eq]
        obtain ⟨h1, h2⟩ := natToChars_digits _ x hx
        exact (numChar_ne_minus_toNat h1 h2).2.2
    unfold parseUnsigned
    rw [hsplit]
    show (if natToChars (m / 10 ^ k) = [] ∧ F = [] then none else _) = _
    rw [if_neg (by
      intro hcon
      exact natToChars_ne_nil _ hcon.1)]
    have hA : goDigits 0 (natToChars (m / 10 ^ k)) = some (m / 10 ^ k) := by
      rw [goDigits_natToChars]
      simp
    have hFval : goDigits 0 F = some (m % 10 ^ k) := by
      rw [hF, goDigits_replicate_zero, goDigits_natToChars]
      simp
    rw [hA, hFval]
    show some _ = _
    congr 1
    rw [hFlen]
    have h10 : ((10 : ℚ) ^ k) ≠ 0 := by positivity
    field_simp
    norm_cast
    calc m / 10 ^ k * 10 ^ k + m % 10 ^ k
        = 10 ^ k * (m / 10 ^ k) + m % 10 ^ k := by ring
      _ = m := Nat.div_add_mod m (10 ^ k)

theorem decimalChars_val {q : ℚ} {k : ℕ} (hk : decExp q.den = some k) :
    ((q.num.natAbs * (10 ^ k / q.den) : ℕ) : ℚ) / ((10 : ℚ) ^ k) =
      ((q.num.natAbs : ℚ) / (q.den : ℚ)) := by
  have hdvd : q.den ∣ 10 ^ k := by
    have := List.find?_some hk
    simp only [decide_eq_true_eq] at this
    exact Nat.dvd_iff_mod_eq_zero.mpr this
  obtain ⟨c, hc⟩ := hdvd
  have hc0 : c ≠ 0 := by
    intro h0
    rw [h0, Nat.mul_zero] at hc
    exact absurd hc (by positivity)
  have hq : 10 ^ k / q.den = c := by
    rw [hc, Nat.mul_div_cancel_left _ q.pos]
  rw [hq]
  have hck : ((10 : ℚ) ^ k) = (q.den : ℚ) * (c : ℚ) := by
    have h1 : ((10 ^ k : ℕ) : ℚ) = ((q.den * c : ℕ) : ℚ) := by rw [hc]
    push_cast at h1
    exact h1
  rw [hck]
  have hcq : (c : ℚ) ≠ 0 := Nat.cast_ne_zero.mpr hc0
  have hdq : (q.den : ℚ) ≠ 0 := by
    have := q.pos
    positivity
  push_cast
  field_simp
  ring

theorem parseNumChars_decimalChars {q : ℚ} {s : List Char}
    (h : decimalChars q = some s) :
    parseNumChars s = some q ∧ s ≠ [] ∧ ∀ c ∈ s, numChar c = true := by
  unfold decimalChars at h
  cases hk : decExp q.den with
  | none => rw [hk] at h; exact absurd h (by simp)
  | some k =>
    rw [hk] at h
    simp only [Option.some.injEq] at h
    set m := q.num.natAbs * (10 ^ k / q.den) with hm
    have hval : ((m : ℚ)) / ((10 : ℚ) ^ k) = ((q.num.natAbs : ℚ) / (q.den : ℚ)) :=
      decimalChars_val hk
    have hDchars : ∀ c ∈ decimalCharsNat m k, numChar c = true := decimalCharsNat_numChars m k
    obtain ⟨d, ds, hds, hd1, hd2⟩ := decimalCharsNat_head m k
    have hsingle : ∀ l : List Char, (∀ c ∈ l, numChar c = true) →
        l.splitOnP (fun c => decide (c = 'e') || decide (c = 'E')) = [l] := by
      intro l hl
      apply List.splitOnP_eq_single
      intro x hx
      rw [numChar_not_expMark (hl x hx)]
      simp
    have hPU : parseUnsigned (decimalCharsNat m k) =
        some ((q.num.natAbs : ℚ) / (q.den : ℚ)) := by
      rw [parseUnsigned_decimalCharsNat, hval]
    by_cases hneg : q.num < 0
    · rw [if_pos hneg] at h
      subst h
      have hchars : ∀ c ∈ '-' :: decimalCharsNat m k, numChar c = true := by
        intro c hc
        rcases List.mem_cons.mp hc with rfl | hc2
        · decide
        · exact hDchars c hc2
      refine ⟨?_, by simp, hchars⟩
      unfold parseNumChars
      rw [hsingle _ hchars]
      show parseSignedBase ('-' :: decimalCharsNat m k) = some q
      simp only [parseSignedBase]
      rw [if_true, hPU]
      show some (-((q.num.natAbs : ℚ) / (q.den : ℚ))) = some q
      congr 1
      have habs : ((q.num.natAbs : ℚ)) = -((q.num : ℚ)) := by
        rw [Int.cast_natAbs]
        exact_mod_cast abs_of_neg hneg
      rw [habs, neg_div, neg_neg, Rat.num_div_den]
    · rw [if_neg hneg] at h
      subst h
      refine ⟨?_, by rw [hds]; simp, hDchars⟩
      unfold parseNumChars
      rw [hsingle _ hDchars]
      show parseSignedBase (decimalCharsNat m k) = some q
      rw [hds]
      simp only [parseSignedBase]
      obtain ⟨hm1, hm2, _⟩ := numChar_ne_minus_toNat hd1 hd2
      rw [if_neg hm1, if_neg hm2, ← hds, hPU]
      congr 1
      have habs : ((q.num.natAbs : ℚ)) = ((q.num : ℚ)) := by
        rw [Int.cast_natAbs]
        exact_mod_cast abs_of_nonneg (le_of_not_lt hneg)
      rw [habs, Rat.num_div_den]

/-! ### CSV lines and fields -/

theorem strMk_data (s : String) : String.mk s.data = s := rfl

theorem mapM_eq_some_map {α β : Type} (f : α → Option β) (g : α → β) :
    ∀ l : List α, (∀ a ∈ l, f a = some (g a)) → l.mapM f = some (l.map g)
  | [], _ => rfl
  | a :: as, h => by
    rw [List.mapM_cons, h a (List.mem_cons_self a as),
      mapM_eq_some_map f g as (fun x hx => h x (List.mem_cons_of_mem _ hx))]
    rfl

theorem cellOkCSV_not_bool {b : Bool} (h : cellOkCSV (Cell.bool b)) : False := h

theorem cellOkX_not_bool {b : Bool} (h : cellOkX (Cell.bool b)) : False := h

theorem cellToField_eq_some {c : Cell} (h : cellOkCSV c) :
    cellToField c = some (cellFieldD c) := by
  cases c with
  | na => rfl
  | num q =>
    obtain ⟨s, hs⟩ := Option.isSome_iff_exists.mp h
    unfold cellFieldD
    rw [show cellToField (Cell.num q) = decimalChars q from rfl, hs]
    rfl
  | str s => rfl
  | bool b => exact (cellOkCSV_not_bool h).elim

theorem csvEscapeField_id {f : List Char} (h : ∀ c ∈ f, csvSpecial c = false) :
    csvEscapeField f = f := by
  unfold csvEscapeField
  rw [if_neg]
  intro hany
  rw [List.any_eq_true] at hany
  obtain ⟨c, hc, hcs⟩ := hany
  rw [h c hc] at hcs
  exact absurd hcs (by simp)

theorem fieldIsNA_nil : fieldIsNA [] = true := by decide

theorem fieldIsNA_false_of_numChars {s : List Char} (hne : s ≠ [])
    (h : ∀ c ∈ s, numChar c = true) : fieldIsNA s = false := by
  cases hf : fieldIsNA s with
  | false => rfl
  | true =>
    have hmem : s ∈ naStrings := by
      unfold fieldIsNA at hf
      exact List.elem_iff.mp hf
    have hbad : ∀ t ∈ naStrings, t = [] ∨ ∃ c ∈ t, numChar c = false := by decide
    rcases hbad s hmem with rfl | ⟨c, hc, hcf⟩
    · exact absurd rfl hne
    · rw [h c hc] at hcf
      exact absurd hcf (by simp)

theorem csvLine_single (f : List Char) : csvLine [f] = f := by
  simp [csvLine, List.intercalate]

theorem csvLine_cons_cons (f g : List Char) (t : List (List Char)) :
    csvLine (f :: g :: t) = f ++ ',' :: csvLine (g :: t) := by
  simp [csvLine, List.intercalate, List.intersperse_cons_cons]

theorem mem_csvLine {c : Char} : ∀ {fields : List (List Char)},
    c ∈ csvLine fields → c = ',' ∨ ∃ f ∈ fields, c ∈ f
  | [], h => by simp [csvLine, List.intercalate] at h
  | [f], h => by
    rw [csvLine_single] at h
    exact Or.inr ⟨f, List.mem_singleton.mpr rfl, h⟩
  | f :: g :: t, h => by
    rw [csvLine_cons_cons] at h
    rcases List.mem_append.mp h with hf | hrest
    · exact Or.inr ⟨f, by simp, hf⟩
    · rcases List.mem_cons.mp hrest with rfl | h2
      · exact Or.inl rfl
      · rcases mem_csvLine h2 with h3 | ⟨f2, hf2, hcf2⟩
        · exact Or.inl h3
        · exact Or.inr ⟨f2, by simp [hf2], hcf2⟩

theorem csvLine_ne_nil : ∀ {fields : List (List Char)}, fields ≠ [] →
    (∀ f, fields = [f] → f ≠ []) → csvLine fields ≠ []
  | [], hne, _ => absurd rfl hne
  | [f], _, h1 => by
    rw [csvLine_single]
    exact h1 f rfl
  | f :: g :: t, _, _ => by
    rw [csvLine_cons_cons]
    intro hc
    rcases List.append_eq_nil.mp hc with ⟨_, h2⟩
    exact absurd h2 (by simp)

theorem splitOn_csvLine {fields : List (List Char)} (hne : fields ≠ [])
    (h : ∀ f ∈ fields, (',' : Char) ∉ f) :
    (csvLine fields).splitOn ',' = fields :=
  List.splitOn_intercalate _ ',' h hne

theorem splitOn_newline_flatten : ∀ (lines : List (List Char)),
    (∀ l ∈ lines, ('\n' : Char) ∉ l) →
    ((lines.map (fun ln => ln ++ ['\n'])).flatten).splitOn '\n' = lines ++ [[]]
  | [], _ => by simp [List.splitOn_nil]
  | l :: ls, h => by
    rw [List.map_cons, List.flatten_cons]
    have hshape : l ++ ['\n'] ++ (ls.map (fun ln => ln ++ ['\n'])).flatten
        = l ++ '\n' :: (ls.map (fun ln => ln ++ ['\n'])).flatten := by simp
    rw [hshape]
    have hl : ∀ x ∈ l, ¬((x == '\n') = true) := by
      intro x hx hc
      rw [beq_iff_eq] at hc
      exact (h l (List.mem_cons_self _ _)) (hc ▸ hx)
    unfold List.splitOn
    rw [List.splitOnP_first _ _ hl '\n' (by simp)]
    have hrec := splitOn_newline_flatten ls (fun x hx => h x (List.mem_cons_of_mem _ hx))
    unfold List.splitOn at hrec
    rw [hrec]
    rfl

theorem splitLines_flatten {lines : List (List Char)}
    (hnl : ∀ l ∈ lines, ('\n' : Char) ∉ l) (hne : ∀ l ∈ lines, l ≠ []) :
    splitLines ((lines.map (fun ln => ln ++ ['\n'])).flatten) = lines := by
  unfold splitLines
  rw [splitOn_newline_flatten lines hnl, List.filter_append]
  have h1 : lines.filter (fun ln => ln ≠ []) = lines := by
    rw [List.filter_eq_self]
    intro a ha
    simp [hne a ha]
  have h2 : ([[]] : List (List Char)).filter (fun ln => ln ≠ []) = [] := by simp
  rw [h1, h2, List.append_nil]

theorem map_getD_range {α : Type} (l : List α) (d : α) :
    (List.range l.length).map (fun j => l.getD j d) = l := by
  induction l with
  | nil => rfl
  | cons a as ih =>
    rw [List.length_cons, List.range_succ_eq_map, List.map_cons, List.map_map]
    have hfun : ((fun j => (a :: as).getD j d) ∘ Nat.succ) = (fun j => as.getD j d) := rfl
    rw [hfun, ih]
    rfl

theorem rangeMap_getD_eq {β : Type} {L : ℕ} {j : ℕ} (hj : j < L)
    (g : ℕ → β) (d : β) : ((List.range L).map g).getD j d = g j := by
  have hlen : j < ((List.range L).map g).length := by simp [hj]
  rw [List.getD_eq_getElem _ _ hlen, List.getElem_map, List.getElem_range]

theorem map_getD_eq {α β : Type} {r : List α} {j : ℕ} (hj : j < r.length)
    (g : α → β) (d : β) (d0 : α) : (r.map g).getD j d = g (r.getD j d0) := by
  rw [List.getD_eq_getElem _ _ (by simpa using hj), List.getElem_map,
    List.getD_eq_getElem _ _ hj]

theorem map_map_eq {α β γ : Type} (f : α → β) (g : β → γ) (l : List α) :
    (l.map f).map g = l.map (fun x => g (f x)) := by
  rw [List.map_map]
  rfl

theorem map_eq_singleton {α β : Type} {l : List α} {g : α → β} {f : β}
    (h : l.map g = [f]) : ∃ a, l = [a] ∧ g a = f := by
  cases l with
  | nil => simp at h
  | cons a as =>
    cases as with
    | nil =>
      simp only [List.map_cons, List.map_nil, List.cons.injEq, and_true] at h
      exact ⟨a, rfl, h⟩
    | cons b bs => simp at h

theorem csvSpecial_false_ne {ch : Char} (h : csvSpecial ch = false) :
    ch ≠ ',' ∧ ch ≠ '\n' := by
  constructor <;> rintro rfl <;> revert h <;> decide

/-- The CSV round trip, under the `CsvRoundTripOK` hypotheses. -/
theorem csv_roundTrip {t : Table} (H : CsvRoundTripOK t) : RoundTripCsv t := by
  obtain ⟨hWF, hcols, _hnodup, hnames, hcells, hhomog, hone⟩ := H
  have hL : t.colNames.length = t.nCols := by
    simp [Table.colNames, Table.nCols]
  have hcolnames_ne : t.colNames ≠ [] := by
    unfold Table.colNames
    simp [hcols]
  -- field-level facts for each admissible cell
  have hfs : ∀ c : Cell, cellOkCSV c →
      (∀ ch ∈ cellFieldD c, csvSpecial ch = false) ∧
      (c = Cell.na → cellFieldD c = []) ∧
      (∀ q, c = Cell.num q →
        fieldIsNA (cellFieldD c) = false ∧ parseNumChars (cellFieldD c) = some q ∧
          cellFieldD c ≠ []) ∧
      (∀ s0, c = Cell.str s0 → cellFieldD c = s0.data) := by
    intro c hc
    cases c with
    | na =>
      refine ⟨?_, fun _ => rfl, ?_, ?_⟩
      · intro ch hch
        simp [cellFieldD, cellToField] at hch
      · intro q hq
        exact absurd hq (by simp)
      · intro s0 hs0
        exact absurd hs0 (by simp)
    | num q0 =>
      obtain ⟨sq, hsq⟩ := Option.isSome_iff_exists.mp hc
      have hfld : cellFieldD (Cell.num q0) = sq := by
        unfold cellFieldD
        rw [show cellToField (Cell.num q0) = decimalChars q0 from rfl, hsq]
        rfl
      obtain ⟨hparse, hne, hchars⟩ := parseNumChars_decimalChars hsq
      refine ⟨?_, by simp, ?_, ?_⟩
      · intro ch hch
        rw [hfld] at hch
        exact numChar_not_special (hchars ch hch)
      · intro q hq
        injection hq with hqq
        subst hqq
        rw [hfld]
        exact ⟨fieldIsNA_false_of_numChars hne hchars, hparse, hne⟩
      · intro s0 hs0
        exact absurd hs0 (by simp)
    | str s0 =>
      obtain ⟨hne0, hnos, hna0, hnum0, _⟩ := hc
      have hfld : cellFieldD (Cell.str s0) = s0.data := by
        unfold cellFieldD
        rw [show cellToField (Cell.str s0) = some (csvEscapeField s0.data) from rfl]
        show csvEscapeField s0.data = s0.data
        exact csvEscapeField_id hnos
      refine ⟨?_, by simp, ?_, ?_⟩
      · intro ch hch
        rw [hfld] at hch
        exact hnos ch hch
      · intro q hq
        exact absurd hq (by simp)
      · intro s1 hs1
        injection hs1 with h
        subst h
        exact hfld
    | bool b => exact (cellOkCSV_not_bool hc).elim
  -- the write succeeds
  have hmapM : t.rows.mapM (fun r : List Cell => r.mapM cellToField)
      = some (t.rows.map (fun r => r.map cellFieldD)) := by
    apply mapM_eq_some_map
    intro r hr
    apply mapM_eq_some_map
    intro c hc
    exact cellToField_eq_some (hcells r hr c hc)
  have hhdrfields : t.colNames.map (fun s => csvEscapeField s.data)
      = t.colNames.map (fun s => s.data) := by
    apply List.map_congr_left
    intro s hs
    exact csvEscapeField_id (hnames s hs).2
  have hwrite : csvWrite t = some
      (((csvLine (t.colNames.map (fun s => s.data))
          :: t.rows.map (fun r => csvLine (r.map cellFieldD))).map
        (fun ln => ln ++ ['\n'])).flatten) := by
    unfold csvWrite
    rw [hmapM, hhdrfields]
    simp only [Option.map_some', List.map_map, Function.comp]
    rfl
  -- facts about the lines
  have hhdr_no_nl : ('\n' : Char) ∉ csvLine (t.colNames.map (fun s => s.data)) := by
    intro hmem
    rcases mem_csvLine hmem with h1 | ⟨f, hf, hcf⟩
    · exact absurd h1 (by decide)
    · obtain ⟨s, hs, rfl⟩ := List.mem_map.mp hf
      have := (hnames s hs).2 '\n' hcf
      exact absurd this (by decide)
  have hdata_no_nl : ∀ r ∈ t.rows, ('\n' : Char) ∉ csvLine (r.map cellFieldD) := by
    intro r hr hmem
    rcases mem_csvLine hmem with h1 | ⟨f, hf, hcf⟩
    · exact absurd h1 (by decide)
    · obtain ⟨c, hc, rfl⟩ := List.mem_map.mp hf
      have := (hfs c (hcells r hr c hc)).1 '\n' hcf
      exact absurd this (by decide)
  have hhdr_ne : csvLine (t.colNames.map (fun s => s.data)) ≠ [] := by
    apply csvLine_ne_nil (by simp [hcolnames_ne])
    intro f hf
    obtain ⟨s, hsl, rfl⟩ := map_eq_singleton hf
    exact (hnames s (by rw [hsl]; exact List.mem_singleton.mpr rfl)).1
  have hdata_ne : ∀ r ∈ t.rows, csvLine (r.map cellFieldD) ≠ [] := by
    intro r hr
    have hrlen : r.length = t.nCols := hWF r hr
    apply csvLine_ne_nil
    · intro hclen
      rw [List.map_eq_nil_iff] at hclen
      rw [hclen] at hrlen
      exact hcols (List.length_eq_zero.mp hrlen.symm)
    · intro f hf
      obtain ⟨c, hcl, rfl⟩ := map_eq_singleton hf
      have hc1 : t.nCols = 1 := by
        rw [← hrlen, hcl]
        rfl
      have hcne : c ≠ Cell.na := hone hc1 r hr c (by rw [hcl]; exact List.mem_singleton.mpr rfl)
      have hcok := hcells r hr c (by rw [hcl]; exact List.mem_singleton.mpr rfl)
      cases c with
      | na => exact absurd rfl hcne
      | num q => exact ((hfs _ hcok).2.2.1 q rfl).2.2
      | str s0 =>
        rw [(hfs _ hcok).2.2.2 s0 rfl]
        exact hcok.1
      | bool b => exact (cellOkCSV_not_bool hcok).elim
  -- the stream splits back into the lines
  have hsplit : splitLines
      (((csvLine (t.colNames.map (fun s => s.data))
          :: t.rows.map (fun r => csvLine (r.map cellFieldD))).map
        (fun ln => ln ++ ['\n'])).flatten)
      = csvLine (t.colNames.map (fun s => s.data))
          :: t.rows.map (fun r => csvLine (r.map cellFieldD)) := by
    apply splitLines_flatten
    · intro l hl
      rcases List.mem_cons.mp hl with rfl | hl2
      · exact hhdr_no_nl
      · obtain ⟨r, hr, rfl⟩ := List.mem_map.mp hl2
        exact hdata_no_nl r hr
    · intro l hl
      rcases List.mem_cons.mp hl with rfl | hl2
      · exact hhdr_ne
      · obtain ⟨r, hr, rfl⟩ := List.mem_map.mp hl2
        exact hdata_ne r hr
  -- each line splits back into its fields
  have hhdr_fields : fieldsOfLine (csvLine (t.colNames.map (fun s => s.data)))
      = t.colNames.map (fun s => s.data) := by
    apply splitOn_csvLine (by simp [hcolnames_ne])
    intro f hf
    obtain ⟨s, hs, rfl⟩ := List.mem_map.mp hf
    intro hcm
    have := (hnames s hs).2 ',' hcm
    exact absurd this (by decide)
  have hdata_fields : ∀ r ∈ t.rows,
      fieldsOfLine (csvLine (r.map cellFieldD)) = r.map cellFieldD := by
    intro r hr
    apply splitOn_csvLine
    · intro hclen
      rw [List.map_eq_nil_iff] at hclen
      have hrlen := hWF r hr
      rw [hclen] at hrlen
      exact hcols (List.length_eq_zero.mp hrlen.symm)
    · intro f hf hcm
      obtain ⟨c, hc, rfl⟩ := List.mem_map.mp hf
      have := (hfs c (hcells r hr c hc)).1 ',' hcm
      exact absurd this (by decide)
  have hnames2 : (fieldsOfLine (csvLine (t.colNames.map (fun s => s.data)))).map String.mk
      = t.colNames := by
    rw [hhdr_fields, List.map_map]
    have hcomp : (String.mk ∘ fun s : String => s.data) = id := by
      funext s
      exact strMk_data s
    rw [hcomp, List.map_id]
  have hfrows : (t.rows.map (fun r => csvLine (r.map cellFieldD))).map fieldsOfLine
      = t.rows.map (fun r => r.map cellFieldD) := by
    rw [List.map_map]
    apply List.map_congr_left
    intro r hr
    exact hdata_fields r hr
  refine ⟨_, hwrite, ?_⟩
  -- evaluate the read
  have hread0 : csvRead
      (((csvLine (t.colNames.map (fun s => s.data))
          :: t.rows.map (fun r => csvLine (r.map cellFieldD))).map
        (fun ln => ln ++ ['\n'])).flatten)
      = csvParse (csvLine (t.colNames.map (fun s => s.data)))
          (t.rows.map (fun r => csvLine (r.map cellFieldD))) := by
    unfold csvRead
    rw [hsplit]
  have hall : ((t.rows.map (fun r => csvLine (r.map cellFieldD))).map fieldsOfLine).all
      (fun r => r.length = ((fieldsOfLine (csvLine (t.colNames.map (fun s => s.data)))).map
        String.mk).length) = true := by
    rw [hfrows, hnames2, List.all_eq_true]
    intro fr hfr
    obtain ⟨r, hr, rfl⟩ := List.mem_map.mp hfr
    simp only [List.length_map, decide_eq_true_eq]
    rw [hWF r hr, hL]
    rfl
  have hparse : csvParse (csvLine (t.colNames.map (fun s => s.data)))
      (t.rows.map (fun r => csvLine (r.map cellFieldD))) = some
      { header := (List.range t.colNames.length).map (fun j =>
          (t.colNames.getD j "", inferColType ((t.rows.map (fun r => r.map cellFieldD)).map
            (fun fr => fr.getD j [])))),
        rows := (t.rows.map (fun r => r.map cellFieldD)).map (fun fr =>
          (List.range t.colNames.length).map (fun j =>
            fieldCell (inferColType ((t.rows.map (fun r => r.map cellFieldD)).map
              (fun fr2 => fr2.getD j []))) (fr.getD j []))) } := by
    unfold csvParse
    rw [if_pos hall]
    rw [hnames2, hfrows]
  rw [hread0, hparse]
  refine ⟨_, rfl, ?_, ?_, ?_⟩
  · -- column names agree
    show ((List.range t.colNames.length).map _).map Prod.fst = t.colNames
    rw [List.map_map]
    have hcomp : (Prod.fst ∘ fun j => ((t.colNames.getD j "",
        inferColType ((t.rows.map (fun r => r.map cellFieldD)).map (fun fr => fr.getD j [])))))
        = fun j => t.colNames.getD j "" := rfl
    rw [hcomp]
    exact map_getD_range t.colNames ""
  · -- row count agrees
    show (((t.rows.map _).map _ : List (List Cell))).length = t.rows.length
    rw [List.length_map, List.length_map]
  · -- cell values agree column by column
    intro j hj
    have hjL : j < t.colNames.length := by rw [hL]; exact hj
    -- fields of column j
    have hcolfields : (t.rows.map (fun r => r.map cellFieldD)).map (fun fr => fr.getD j [])
        = (t.colCells j).map cellFieldD := by
      rw [List.map_map]
      unfold Table.colCells
      rw [List.map_map]
      apply List.map_congr_left
      intro r hr
      simp only [Function.comp]
      exact map_getD_eq (by rw [hWF r hr]; exact hj) cellFieldD [] Cell.na
    -- admissibility of every cell of the column
    have hcellsj : ∀ c ∈ t.colCells j, cellOkCSV c := by
      intro c hc
      obtain ⟨r, hr, rfl⟩ := List.mem_map.mp hc
      have hjr : j < r.length := by rw [hWF r hr]; exact hj
      rw [List.getD_eq_getElem _ _ hjr]
      exact hcells r hr _ (List.getElem_mem _)
    -- the read column, computed step by step
    show ((t.rows.map (fun r => r.map cellFieldD)).map (fun fr =>
        (List.range t.colNames.length).map (fun jj =>
          fieldCell (inferColType ((t.rows.map (fun r => r.map cellFieldD)).map
            (fun fr2 => fr2.getD jj []))) (fr.getD jj [])))).map
        (fun r => r.getD j Cell.na) = t.colCells j
    rw [map_map_eq (fun fr : List (List Char) =>
        (List.range t.colNames.length).map (fun jj =>
          fieldCell (inferColType ((t.rows.map (fun r => r.map cellFieldD)).map
            (fun fr2 => fr2.getD jj []))) (fr.getD jj [])))
      (fun r : List Cell => r.getD j Cell.na) (t.rows.map (fun r => r.map cellFieldD))]
    have hstep : ∀ fr ∈ t.rows.map (fun r => r.map cellFieldD),
        (((List.range t.colNames.length).map (fun jj =>
          fieldCell (inferColType ((t.rows.map (fun r => r.map cellFieldD)).map
            (fun fr2 => fr2.getD jj []))) (fr.getD jj [])))).getD j Cell.na
          = fieldCell (inferColType ((t.colCells j).map cellFieldD)) (fr.getD j []) := by
      intro fr _
      rw [rangeMap_getD_eq hjL, hcolfields]
    rw [List.map_congr_left hstep]
    -- determine the inferred dtype, then recover each cell
    have hfinish : ∀ dt : DType,
        (∀ r ∈ t.rows, fieldCell dt (cellFieldD (r.getD j Cell.na)) = r.getD j Cell.na) →
        (t.rows.map (fun r => r.map cellFieldD)).map
          (fun fr => fieldCell dt (fr.getD j [])) = t.colCells j := by
      intro dt hrec
      rw [map_map_eq (fun r : List Cell => r.map cellFieldD)
        (fun fr : List (List Char) => fieldCell dt (fr.getD j [])) t.rows]
      show _ = t.rows.map (fun r => r.getD j Cell.na)
      apply List.map_congr_left
      intro r hr
      rw [map_getD_eq (by rw [hWF r hr]; exact hj) cellFieldD [] Cell.na]
      exact hrec r hr
    by_cases hstr : ∃ s0, Cell.str s0 ∈ t.colCells j
    · -- object column
      obtain ⟨s0, hs0⟩ := hstr
      have hs0ok := hcellsj _ hs0
      have hwit : cellFieldD (Cell.str s0) ∈ (t.colCells j).map cellFieldD :=
        List.mem_map_of_mem _ hs0
      have hfld0 := (hfs _ hs0ok).2.2.2 s0 rfl
      have hnotnum : ¬ ((t.colCells j).map cellFieldD).all fieldNumericLike = true := by
        intro hall2
        rw [List.all_eq_true] at hall2
        have hx := hall2 _ hwit
        rw [hfld0] at hx
        unfold fieldNumericLike at hx
        rw [hs0ok.2.2.1, hs0ok.2.2.2.1] at hx
        simp at hx
      have hnotbool : ¬ ((t.colCells j).map cellFieldD).all fieldBoolOrNA = true := by
        intro hall2
        rw [List.all_eq_true] at hall2
        have hx := hall2 _ hwit
        rw [hfld0] at hx
        unfold fieldBoolOrNA at hx
        rw [hs0ok.2.2.1, hs0ok.2.2.2.2.2] at hx
        simp at hx
      have hT : inferColType ((t.colCells j).map cellFieldD) = DType.text := by
        unfold inferColType
        rw [if_neg hnotnum, if_neg hnotbool]
      rw [hT]
      apply hfinish
      intro r hr
      have hcmem : r.getD j Cell.na ∈ t.colCells j := List.mem_map_of_mem _ hr
      cases hc : r.getD j Cell.na with
      | na =>
        rw [hc] at hcmem
        have hcok := hcellsj _ hcmem
        unfold fieldCell
        rw [if_pos (by rw [(hfs _ hcok).2.1 rfl]; exact fieldIsNA_nil)]
      | num q =>
        exfalso
        rw [hc] at hcmem
        rcases hhomog j hj with hcase | hcase
        · rcases hcase _ hs0 with h1 | h1 <;> simp [cellIsNum] at h1
        · rcases hcase _ hcmem with h1 | h1 <;> simp [cellIsStr] at h1
      | str s1 =>
        rw [hc] at hcmem
        have hcok := hcellsj _ hcmem
        have hfld := (hfs _ hcok).2.2.2 s1 rfl
        unfold fieldCell
        rw [hfld, if_neg (by rw [hcok.2.2.1]; simp)]
      | bool b =>
        exfalso
        rw [hc] at hcmem
        exact cellOkCSV_not_bool (hcellsj _ hcmem)
    · -- numeric column
      have hT : inferColType ((t.colCells j).map cellFieldD) = DType.numeric := by
        unfold inferColType
        rw [if_pos]
        rw [List.all_eq_true]
        intro f hf
        obtain ⟨c, hc, rfl⟩ := List.mem_map.mp hf
        have hcok := hcellsj c hc
        cases c with
        | na =>
          rw [(hfs _ hcok).2.1 rfl]
          unfold fieldNumericLike
          rw [fieldIsNA_nil]
          simp
        | num q =>
          obtain ⟨hna, hpq, _⟩ := (hfs _ hcok).2.2.1 q rfl
          unfold fieldNumericLike
          rw [hpq]
          simp
        | str s0 => exact absurd ⟨s0, hc⟩ hstr
        | bool b => exact (cellOkCSV_not_bool hcok).elim
      rw [hT]
      apply hfinish
      intro r hr
      have hcmem : r.getD j Cell.na ∈ t.colCells j := List.mem_map_of_mem _ hr
      cases hc : r.getD j Cell.na with
      | na =>
        rw [hc] at hcmem
        have hcok := hcellsj _ hcmem
        unfold fieldCell
        rw [if_pos (by rw [(hfs _ hcok).2.1 rfl]; exact fieldIsNA_nil)]
      | num q =>
        rw [hc] at hcmem
        have hcok := hcellsj _ hcmem
        obtain ⟨hna, hpq, _⟩ := (hfs _ hcok).2.2.1 q rfl
        unfold fieldCell
        rw [if_neg (by rw [hna]; simp), hpq]
      | str s0 =>
        exfalso
        rw [hc] at hcmem
        exact hstr ⟨s0, hcmem⟩
      | bool b =>
        exfalso
        rw [hc] at hcmem
        exact cellOkCSV_not_bool (hcellsj _ hcmem)

/-! ### The Excel round trip -/

theorem dropTrailingBlanks_eq_self {rs : List (List XCell)}
    (h : ∀ x, rs.getLast? = some x → rowBlank x = false) :
    dropTrailingBlanks rs = rs := by
  unfold dropTrailingBlanks
  cases hr : rs.reverse with
  | nil =>
    rw [List.dropWhile_nil, ← hr, List.reverse_reverse]
  | cons x xs =>
    have hx : rs.getLast? = some x := by
      rw [← List.head?_reverse, hr]
      rfl
    rw [List.dropWhile_cons, h x hx]
    show (x :: xs).reverse = rs
    rw [← hr, List.reverse_reverse]

/-- A text worksheet cell that is neither a missing-value marker nor a
boolean literal reads back as the same string under every inferred dtype. -/
theorem xcellField_text_id (dt : DType) {s : String} (h1 : fieldIsNA s.data = false)
    (h2 : fieldBoolLike s.data = false) :
    xcellField dt (XCell.text s) = Cell.str s := by
  have hor : (trueStrings.contains s.data || falseStrings.contains s.data) = false := h2
  have ht : trueStrings.contains s.data = false := by
    cases h : trueStrings.contains s.data
    · rfl
    · rw [h] at hor
      simp at hor
  have hf : falseStrings.contains s.data = false := by
    cases h : falseStrings.contains s.data
    · rfl
    · rw [h] at hor
      simp at hor
  cases dt with
  | numeric => simp [xcellField, h1]
  | text => simp [xcellField, h1]
  | boolean =>
    show (if fieldIsNA s.data then Cell.na
      else if trueStrings.contains s.data then Cell.bool true
      else if falseStrings.contains s.data then Cell.bool false
      else Cell.str s) = Cell.str s
    rw [h1, ht, hf]
    rfl

/-- The Excel round trip, under the `ExcelRoundTripOK` hypotheses. -/
theorem excel_roundTrip {t : Table} (H : ExcelRoundTripOK t) : RoundTripExcel t := by
  obtain ⟨hWF, hcols, _hnodup, _hne, hcells, hlast⟩ := H
  have hL : t.colNames.length = t.nCols := by
    simp [Table.colNames, Table.nCols]
  have hcolnames_ne : t.colNames ≠ [] := by
    unfold Table.colNames
    simp [hcols]
  have hcellsj : ∀ j, j < t.nCols → ∀ c ∈ t.colCells j, cellOkX c := by
    intro j hj c hc
    obtain ⟨r, hr, rfl⟩ := List.mem_map.mp hc
    have hjr : j < r.length := by rw [hWF r hr]; exact hj
    rw [List.getD_eq_getElem _ _ hjr]
    exact hcells r hr _ (List.getElem_mem _)
  -- the written worksheet keeps all its rows
  have hws : dropTrailingBlanks (excelWrite t) = excelWrite t := by
    apply dropTrailingBlanks_eq_self
    intro x hx
    unfold excelWrite at hx
    cases hrows : t.rows with
    | nil =>
      rw [hrows] at hx
      simp only [List.map_nil, List.getLast?_singleton, Option.some.injEq] at hx
      subst hx
      obtain ⟨s, rest, hsr⟩ := List.exists_cons_of_ne_nil hcolnames_ne
      rw [hsr]
      unfold rowBlank
      simp
    | cons r0 rs0 =>
      rw [hrows, List.map_cons] at hx
      rw [List.getLast?_cons_cons] at hx
      rw [← List.map_cons, List.getLast?_map] at hx
      obtain ⟨rl, hrl, hxeq⟩ := Option.map_eq_some'.mp hx
      obtain ⟨c, hcmem, hcne⟩ := hlast rl (by rw [hrows]; exact hrl)
      subst hxeq
      unfold rowBlank
      rw [List.all_eq_false]
      refine ⟨cellToXCell c, List.mem_map_of_mem _ hcmem, ?_⟩
      cases c with
      | na => exact absurd rfl hcne
      | num q => simp [cellToXCell]
      | str s => simp [cellToXCell]
      | bool b => simp [cellToXCell]
  have hnames2 : (t.colNames.map XCell.text).map xcellName = t.colNames := by
    rw [List.map_map]
    have hcomp : (xcellName ∘ XCell.text) = id := rfl
    rw [hcomp, List.map_id]
  have hread : excelRead (excelWrite t) = excelParse (t.colNames.map XCell.text)
      (t.rows.map (fun r => r.map cellToXCell)) := by
    unfold excelRead
    rw [hws, show excelWrite t = (t.colNames.map XCell.text)
      :: t.rows.map (fun r => r.map cellToXCell) from rfl]
  have hall : ((t.rows.map (fun r => r.map cellToXCell))).all
      (fun r => r.length = ((t.colNames.map XCell.text).map xcellName).length) = true := by
    rw [hnames2, List.all_eq_true]
    intro fr hfr
    obtain ⟨r, hr, rfl⟩ := List.mem_map.mp hfr
    simp only [List.length_map, decide_eq_true_eq]
    rw [hWF r hr, hL]
    rfl
  have hparse : excelParse (t.colNames.map XCell.text)
      (t.rows.map (fun r => r.map cellToXCell)) = some
      { header := (List.range t.colNames.length).map (fun j =>
          (t.colNames.getD j "", inferXType ((t.rows.map (fun r => r.map cellToXCell)).map
            (fun r => r.getD j XCell.empty)))),
        rows := (t.rows.map (fun r => r.map cellToXCell)).map (fun r =>
          (List.range t.colNames.length).map (fun j =>
            xcellField (inferXType ((t.rows.map (fun r => r.map cellToXCell)).map
              (fun r2 => r2.getD j XCell.empty))) (r.getD j XCell.empty))) } := by
    unfold excelParse
    rw [if_pos hall]
    rw [hnames2]
  refine ⟨_, hread.trans hparse, ?_, ?_, ?_⟩
  · show ((List.range t.colNames.length).map _).map Prod.fst = t.colNames
    rw [List.map_map]
    have hcomp : (Prod.fst ∘ fun j => ((t.colNames.getD j "",
        inferXType ((t.rows.map (fun r => r.map cellToXCell)).map
          (fun r => r.getD j XCell.empty)))))
        = fun j => t.colNames.getD j "" := rfl
    rw [hcomp]
    exact map_getD_range t.colNames ""
  · show (((t.rows.map _).map _ : List (List Cell))).length = t.rows.length
    rw [List.length_map, List.length_map]
  · intro j hj
    have hjL : j < t.colNames.length := by rw [hL]; exact hj
    show ((t.rows.map (fun r => r.map cellToXCell)).map (fun r =>
        (List.range t.colNames.length).map (fun jj =>
          xcellField (inferXType ((t.rows.map (fun r => r.map cellToXCell)).map
            (fun r2 => r2.getD jj XCell.empty))) (r.getD jj XCell.empty)))).map
          (fun r => r.getD j Cell.na) = t.colCells j
    rw [map_map_eq (fun r : List XCell =>
        (List.range t.colNames.length).map (fun jj =>
          xcellField (inferXType ((t.rows.map (fun r => r.map cellToXCell)).map
            (fun r2 => r2.getD jj XCell.empty))) (r.getD jj XCell.empty)))
      (fun r : List Cell => r.getD j Cell.na) (t.rows.map (fun r => r.map cellToXCell))]
    have hstep : ∀ fr ∈ t.rows.map (fun r => r.map cellToXCell),
        (((List.range t.colNames.length).map (fun jj =>
          xcellField (inferXType ((t.rows.map (fun r => r.map cellToXCell)).map
            (fun r2 => r2.getD jj XCell.empty))) (fr.getD jj XCell.empty)))).getD j Cell.na
          = xcellField (inferXType ((t.rows.map (fun r => r.map cellToXCell)).map
            (fun r2 => r2.getD j XCell.empty))) (fr.getD j XCell.empty) := by
      intro fr _
      rw [rangeMap_getD_eq hjL]
    rw [List.map_congr_left hstep]
    rw [map_map_eq (fun r : List Cell => r.map cellToXCell)
      (fun fr : List XCell =>
        xcellField (inferXType ((t.rows.map (fun r => r.map cellToXCell)).map
          (fun r2 => r2.getD j XCell.empty))) (fr.getD j XCell.empty)) t.rows]
    show _ = t.rows.map (fun r => r.getD j Cell.na)
    apply List.map_congr_left
    intro r hr
    rw [map_getD_eq (by rw [hWF r hr]; exact hj) cellToXCell XCell.empty Cell.na]
    have hcmem : r.getD j Cell.na ∈ t.colCells j := List.mem_map_of_mem _ hr
    cases hc : r.getD j Cell.na with
    | na => rfl
    | num q => rfl
    | bool b =>
      rw [hc] at hcmem
      exact (cellOkX_not_bool (hcellsj j hj _ hcmem)).elim
    | str s =>
      rw [hc] at hcmem
      have hcok := hcellsj j hj _ hcmem
      exact xcellField_text_id _ hcok.1 hcok.2

end DataElevate
